import Mathlib

set_option linter.unusedVariables false

namespace Sched

/-- Day-of-week tag: the seven string literals of the source's DayOfWeek union type
(src/App.tsx line 3). -/
inductive Day
| Mon
| Tue
| Wed
| Thu
| Fri
| Sat
| Sun
deriving DecidableEq

/-- Runtime string of a Day value; in the source a DayOfWeek value IS one of these
seven strings. -/
def Day.str : Day → String
| .Mon => "Mon"
| .Tue => "Tue"
| .Wed => "Wed"
| .Thu => "Thu"
| .Fri => "Fri"
| .Sat => "Sat"
| .Sun => "Sun"

/-- SectionKind union (src/App.tsx lines 5-12); informational only. -/
inductive SectionKind
| lecture
| lab
| combined
| seminar
| onlineOnly
| other
deriving DecidableEq

/-- Modality union (src/App.tsx line 14). -/
inductive Modality
| onCampus
| online
| hybrid
deriving DecidableEq

/-- RoomType union (src/App.tsx line 16). -/
inductive RoomType
| lab
| lecture
| virtual
| other
deriving DecidableEq

/-- Well-formed "HH:MM" wall-clock value, modelled by its two numeric components.
The source's minutesFromTime splits the string on ":" and reads the two numbers; the
claims under study never involve malformed time strings. -/
structure TimeOfDay where
  hh : Nat
  mm : Nat
deriving DecidableEq

/-- minutesFromTime (src/App.tsx lines 576-579): h * 60 + m, a JS number (an integer
here, since gaps computed from these values may be negative). -/
def minutesFromTime (t : TimeOfDay) : Int := (t.hh : Int) * 60 + (t.mm : Int)

/-- MeetingBlock (src/App.tsx lines 18-23); roomId is optional. -/
structure MeetingBlock where
  day : Day
  startTime : TimeOfDay
  endTime : TimeOfDay
  roomId : Option String
deriving DecidableEq

/-- Section (src/App.tsx lines 25-37).  Named CourseSection-style record; the TS name
"Section" is kept (it is a valid identifier inside this namespace). -/
structure Section where
  id : String
  scenarioId : String
  courseCode : String
  courseTitle : String
  sectionNumber : String
  kind : SectionKind
  modality : Modality
  length : String
  instructorId : String
  meetingBlocks : List MeetingBlock
  notes : Option String
deriving DecidableEq

/-- Instructor (src/App.tsx lines 39-42). -/
structure Instructor where
  id : String
  name : String
deriving DecidableEq

/-- Room (src/App.tsx lines 44-48). -/
structure Room where
  id : String
  name : String
  roomType : RoomType
deriving DecidableEq

/-- Pathway (src/App.tsx lines 50-54). -/
structure Pathway where
  id : String
  name : String
  requiredCourseCodes : List String
deriving DecidableEq

/-- InstructorConflict (src/App.tsx lines 72-79). -/
structure InstructorConflict where
  instructorId : String
  instructorName : String
  sectionA : Section
  sectionB : Section
  blockA : MeetingBlock
  blockB : MeetingBlock
deriving DecidableEq

/-- RoomConflict (src/App.tsx lines 81-89).  The day field is declared DayOfWeek in the
source but is produced by an unchecked cast from key.split("__")[1]; its runtime value
is that string, so it is modelled as a String here. -/
structure RoomConflict where
  roomId : String
  roomName : String
  day : String
  sectionA : Section
  sectionB : Section
  blockA : MeetingBlock
  blockB : MeetingBlock
deriving DecidableEq

/-- LabBufferConflict (src/App.tsx lines 91-100); day modelled as String for the same
reason as in RoomConflict. -/
structure LabBufferConflict where
  roomId : String
  roomName : String
  day : String
  firstSection : Section
  secondSection : Section
  firstBlock : MeetingBlock
  secondBlock : MeetingBlock
  gapMinutes : Int
deriving DecidableEq

/-- PathwayIssue (src/App.tsx lines 102-106). -/
structure PathwayIssue where
  pathwayId : String
  pathwayName : String
  details : String
deriving DecidableEq

/-- ConflictSummary (src/App.tsx lines 108-113). -/
structure ConflictSummary where
  instructorConflicts : List InstructorConflict
  roomConflicts : List RoomConflict
  labBufferConflicts : List LabBufferConflict
  pathwayIssues : List PathwayIssue
deriving DecidableEq

/-- Overlap rule of spec section 4.1.  The source inlines this exact half-open
comparison at its three use sites (sectionsOverlap and the two pair loops of
computeConflicts); it is factored out here so its use can be stated and proved. -/
def overlaps (aStart aEnd bStart bEnd : Int) : Bool :=
  decide (aStart < bEnd) && decide (bStart < aEnd)

/-- sectionsOverlap (src/App.tsx lines 587-603): early false on an empty block list,
then the nested any/any with a same-day guard and the half-open comparison. -/
def sectionsOverlap (a b : Section) : Bool :=
  if a.meetingBlocks.isEmpty || b.meetingBlocks.isEmpty then false
  else
    a.meetingBlocks.any fun blockA =>
      b.meetingBlocks.any fun blockB =>
        decide (blockA.day = blockB.day) &&
        decide (minutesFromTime blockA.startTime < minutesFromTime blockB.endTime) &&
        decide (minutesFromTime blockB.startTime < minutesFromTime blockA.endTime)

/-- Lookup in a JS Map built from a keyed record list (`new Map(xs.map(x => [x.id, x]))`):
on duplicate ids the later record wins, hence the search over the reversed list. -/
def instructorMapGet (instructors : List Instructor) (iid : String) : Option Instructor :=
  instructors.reverse.find? fun inst => inst.id == iid

/-- Room analogue of instructorMapGet. -/
def roomMapGet (rooms : List Room) (rid : String) : Option Room :=
  rooms.reverse.find? fun room => room.id == rid

/-- JS fallback `x?.name || fallback`: the fallback is used when the record is missing
or its name is the empty string (the only falsy string). -/
def nameOr (name : Option String) (fallback : String) : String :=
  match name with
  | some n => if n = "" then fallback else n
  | none => fallback

/-- One entry of the instructorSlots / roomSlots groupings: a meeting block together
with its owning section (src/App.tsx lines 618-623). -/
structure Slot where
  sec : Section
  block : MeetingBlock
deriving DecidableEq

/-- Flat traversal order of (section, block) records, as produced by the
sections.forEach / meetingBlocks.forEach double loop of computeConflicts
(src/App.tsx lines 623-635). -/
def allSlots (sections : List Section) : List Slot :=
  sections.flatMap fun s => s.meetingBlocks.map fun b => ⟨s, b⟩

/-- Keys of a JS object in insertion order with first occurrences kept.
(Object.entries additionally fronts integer-like keys in numeric order; the contents of
each group do not depend on that, and no claim below depends on the relative order of
distinct groups.) -/
def firstDedup : List String → List String
| [] => []
| x :: xs => x :: (firstDedup xs).filter fun y => y ≠ x

/-- Instructor grouping keys: each section contributes every one of its blocks under
its instructorId (src/App.tsx lines 624-627). -/
def instructorIds (sections : List Section) : List String :=
  firstDedup ((allSlots sections).map fun sl => sl.sec.instructorId)

/-- Contents of one instructorSlots group, in traversal order. -/
def instructorGroup (sections : List Section) (iid : String) : List Slot :=
  (allSlots sections).filter fun sl => sl.sec.instructorId == iid

/-- All index pairs i < j of a list, in the order of the source's nested i/j loops. -/
def listPairs {α : Type} : List α → List (α × α)
| [] => []
| x :: xs => (xs.map fun y => (x, y)) ++ listPairs xs

/-- Instructor pair loop for one group (src/App.tsx lines 637-659): every i < j pair on
the same day passing the half-open comparison yields one entry. -/
def instructorConflictsFor (instructors : List Instructor) (iid : String)
    (slots : List Slot) : List InstructorConflict :=
  (listPairs slots).filterMap fun p =>
    if p.1.block.day = p.2.block.day ∧
        minutesFromTime p.1.block.startTime < minutesFromTime p.2.block.endTime ∧
        minutesFromTime p.2.block.startTime < minutesFromTime p.1.block.endTime then
      some ⟨iid, nameOr ((instructorMapGet instructors iid).map Instructor.name) iid,
            p.1.sec, p.2.sec, p.1.block, p.2.block⟩
    else none

/-- JS truthiness of the optional roomId string, as tested by
`if (!block.roomId) return;` (src/App.tsx line 629): a missing roomId AND the empty
string (the UI's "no room" value) are both falsy. -/
def roomIdTruthy (r : Option String) : Bool :=
  match r with
  | some rid => rid != ""
  | none => false

/-- Room grouping key template string roomId ++ "__" ++ day (src/App.tsx line 630);
none when the block's roomId is falsy (missing or the empty string) — such blocks
are excluded from room and buffer analysis entirely. -/
def roomKeyOf (b : MeetingBlock) : Option String :=
  if roomIdTruthy b.roomId then b.roomId.map fun rid => rid ++ "__" ++ b.day.str
  else none

/-- Room grouping keys in insertion order. -/
def roomKeys (sections : List Section) : List String :=
  firstDedup ((allSlots sections).filterMap fun sl => roomKeyOf sl.block)

/-- Contents of one roomSlots group, in traversal order. -/
def roomGroup (sections : List Section) (k : String) : List Slot :=
  (allSlots sections).filter fun sl => roomKeyOf sl.block == some k

/-- JS String.prototype.split("__"): scan left to right, breaking at each
non-overlapping occurrence of the two-character separator. -/
def splitUUChars : List Char → List (List Char)
| [] => [[]]
| [c] => [[c]]
| c :: c2 :: rest =>
  if c = '_' ∧ c2 = '_' then [] :: splitUUChars rest
  else
    match splitUUChars (c2 :: rest) with
    | [] => [[c]]
    | seg :: segs => (c :: seg) :: segs

/-- String-level wrapper of splitUUChars, modelling key.split("__")
(src/App.tsx line 664). -/
def splitUU (s : String) : List String :=
  (splitUUChars s.data).map String.mk

/-- Whether a character list contains the two-character separator "__". -/
def hasUUChars : List Char → Bool
| [] => false
| [_] => false
| c :: c2 :: rest => (c == '_' && c2 == '_') || hasUUChars (c2 :: rest)

/-- Whether a string contains "__" as a substring. -/
def containsUU (s : String) : Bool := hasUUChars s.data

/-- Whether a string's final character is an underscore. -/
def endsUnd (s : String) : Bool := s.data.getLast? == some '_'

/-- Sort relation of the comparator (a, b) => minutes(a.start) - minutes(b.start)
(src/App.tsx lines 666-668): ascending by start minutes; Array.prototype.sort is
stable, so ties keep input order. -/
def slotLE (a b : Slot) : Prop :=
  minutesFromTime a.block.startTime ≤ minutesFromTime b.block.startTime

instance : DecidableRel slotLE := fun a b => Int.decLe _ _

instance : IsTotal Slot slotLE := ⟨fun a b => Int.le_total _ _⟩

instance : IsTrans Slot slotLE := ⟨fun a b c h1 h2 => le_trans h1 h2⟩

/-- Stable ascending sort of a room group by start minutes. -/
def sortSlots (slots : List Slot) : List Slot := slots.insertionSort slotLE

/-- Direct room conflicts: all-pairs loop over the sorted group, no day re-check (the
group key fixes the day), half-open comparison (src/App.tsx lines 670-689). -/
def roomConflictsFor (rooms : List Room) (roomId dayStr : String)
    (sorted : List Slot) : List RoomConflict :=
  (listPairs sorted).filterMap fun p =>
    if minutesFromTime p.1.block.startTime < minutesFromTime p.2.block.endTime ∧
        minutesFromTime p.2.block.startTime < minutesFromTime p.1.block.endTime then
      some ⟨roomId, nameOr ((roomMapGet rooms roomId).map Room.name) roomId, dayStr,
            p.1.sec, p.2.sec, p.1.block, p.2.block⟩
    else none

/-- Lab-turnaround walk over consecutive entries of the sorted group
(src/App.tsx lines 691-712): emit an entry whenever next.start - current.end falls
strictly below the configured buffer. -/
def bufferWalk (roomId roomName dayStr : String) (labBufferMinutes : Int) :
    List Slot → List LabBufferConflict
| a :: b :: rest =>
  (if minutesFromTime b.block.startTime - minutesFromTime a.block.endTime
      < labBufferMinutes then
    [⟨roomId, roomName, dayStr, a.sec, b.sec, a.block, b.block,
      minutesFromTime b.block.startTime - minutesFromTime a.block.endTime⟩]
  else []) ++ bufferWalk roomId roomName dayStr labBufferMinutes (b :: rest)
| _ => []

/-- Per-group room processing (src/App.tsx lines 663-713): parse the key back by
splitting on "__", sort by start time, emit direct conflicts, and, when the room
resolves to a lab, buffer violations. -/
def processRoomGroup (rooms : List Room) (labBufferMinutes : Int) (k : String)
    (slots : List Slot) : List RoomConflict × List LabBufferConflict :=
  let roomId := (splitUU k).getD 0 ""
  let dayStr := (splitUU k).getD 1 ""
  let sorted := sortSlots slots
  let directs := roomConflictsFor rooms roomId dayStr sorted
  let buffers :=
    match roomMapGet rooms roomId with
    | some room =>
      if room.roomType = RoomType.lab then
        bufferWalk roomId room.name dayStr labBufferMinutes sorted
      else []
    | none => []
  (directs, buffers)

/-- sections.filter(s => s.courseCode === courseCode): exact string match. -/
def sectionsFor (sections : List Section) (courseCode : String) : List Section :=
  sections.filter fun s => s.courseCode == courseCode

/-- Unavailability pass of the pathway check (src/App.tsx lines 719-728). -/
def unavailabilityIssues (sections : List Section) (pathway : Pathway) :
    List PathwayIssue :=
  pathway.requiredCourseCodes.filterMap fun courseCode =>
    if (sectionsFor sections courseCode).isEmpty then
      some ⟨pathway.id, pathway.name,
            courseCode ++ ": no sections offered in this scenario"⟩
    else none

/-- Body of the pairwise exhaustive-conflict pass for one ordered pair of required
course codes (src/App.tsx lines 730-748). -/
def pairIssue (sections : List Section) (pathway : Pathway) (courseA courseB : String) :
    Option PathwayIssue :=
  if (sectionsFor sections courseA).isEmpty || (sectionsFor sections courseB).isEmpty then
    none
  else if (sectionsFor sections courseA).all fun sA =>
      (sectionsFor sections courseB).all fun sB => sectionsOverlap sA sB then
    some ⟨pathway.id, pathway.name,
          courseA ++ " conflicts with " ++ courseB ++ " for all available sections"⟩
  else none

/-- All pair issues of one pathway, in i < j loop order. -/
def pairConflictIssues (sections : List Section) (pathway : Pathway) :
    List PathwayIssue :=
  (listPairs pathway.requiredCourseCodes).filterMap fun p =>
    pairIssue sections pathway p.1 p.2

/-- computeConflicts (src/App.tsx lines 609-757): the whole analysis engine. -/
def computeConflicts (sections : List Section) (instructors : List Instructor)
    (rooms : List Room) (pathways : List Pathway) (labBufferMinutes : Int) :
    ConflictSummary :=
  let instructorConflicts := (instructorIds sections).flatMap fun iid =>
    instructorConflictsFor instructors iid (instructorGroup sections iid)
  let roomResults := (roomKeys sections).map fun k =>
    processRoomGroup rooms labBufferMinutes k (roomGroup sections k)
  let roomConflicts := roomResults.flatMap Prod.fst
  let labBufferConflicts := roomResults.flatMap Prod.snd
  let pathwayIssues := pathways.flatMap fun p =>
    unavailabilityIssues sections p ++ pairConflictIssues sections p
  ⟨instructorConflicts, roomConflicts, labBufferConflicts, pathwayIssues⟩

/-- Derived set of section ids named by any instructor conflict, room conflict or
buffer violation (src/App.tsx lines 2004-2019); pathway issues contribute nothing. -/
def conflictSectionIds (summary : ConflictSummary) : Finset String :=
  let ids : Finset String := ∅
  let ids := summary.instructorConflicts.foldl
    (fun acc item => insert item.sectionB.id (insert item.sectionA.id acc)) ids
  let ids := summary.roomConflicts.foldl
    (fun acc item => insert item.sectionB.id (insert item.sectionA.id acc)) ids
  let ids := summary.labBufferConflicts.foldl
    (fun acc item => insert item.secondSection.id (insert item.firstSection.id acc)) ids
  ids

/-- Kind erasure: replace a section's informational kind field by a fixed value,
leaving every field the conflict engine reads untouched. -/
def eraseKind (s : Section) : Section := { s with kind := SectionKind.other }

/-- Kind erasure lifted to grouping slots. -/
def eraseSlot (sl : Slot) : Slot := ⟨eraseKind sl.sec, sl.block⟩

/-- Kind erasure lifted to instructor-conflict entries (sections are embedded). -/
def eraseIC (e : InstructorConflict) : InstructorConflict :=
  { e with sectionA := eraseKind e.sectionA, sectionB := eraseKind e.sectionB }

/-- Kind erasure lifted to room-conflict entries. -/
def eraseRC (e : RoomConflict) : RoomConflict :=
  { e with sectionA := eraseKind e.sectionA, sectionB := eraseKind e.sectionB }

/-- Kind erasure lifted to buffer-violation entries. -/
def eraseBC (e : LabBufferConflict) : LabBufferConflict :=
  { e with firstSection := eraseKind e.firstSection,
           secondSection := eraseKind e.secondSection }

/-- Kind erasure lifted to whole reports: every flagged pair, day, name, gap and
message survives unchanged; only the kind fields inside embedded sections are
normalized. -/
def eraseSummary (c : ConflictSummary) : ConflictSummary :=
  ⟨c.instructorConflicts.map eraseIC, c.roomConflicts.map eraseRC,
   c.labBufferConflicts.map eraseBC, c.pathwayIssues⟩

/-! Concrete inputs used by the witness and counterexample theorems below. -/

/-- Section builder for concrete inputs: only the fields the engine reads vary. -/
def mkSec (id courseCode instructorId : String) (blocks : List MeetingBlock) : Section :=
  ⟨id, "scenario", courseCode, "Title", "01", SectionKind.lecture, Modality.onCampus,
   "16 Weeks", instructorId, blocks, none⟩

/-- Meeting block builder for concrete inputs. -/
def blk (d : Day) (h1 m1 h2 m2 : Nat) (r : Option String) : MeetingBlock :=
  ⟨d, ⟨h1, m1⟩, ⟨h2, m2⟩, r⟩

/-- Spec section 8 example: Dr. Chen, Tue 13:00-15:00. -/
def exChenX : Section := mkSec "X" "CX" "chen" [blk .Tue 13 0 15 0 none]

/-- Spec section 8 example: Dr. Chen, Tue 14:00-14:30. -/
def exChenY : Section := mkSec "Y" "CY" "chen" [blk .Tue 14 0 14 30 none]

/-- Report of the Dr. Chen double-booking example. -/
def exChenRep : ConflictSummary :=
  computeConflicts [exChenX, exChenY] [⟨"chen", "Dr. Chen"⟩] [] [] 30

/-- Lab-room example, first booking Mon 13:00-16:15 in SC-312. -/
def exLabA : Section := mkSec "LA" "CA" "i1" [blk .Mon 13 0 16 15 (some "SC-312")]

/-- Lab-room example, second booking Mon 16:25-19:25 in SC-312. -/
def exLabB : Section := mkSec "LB" "CB" "i2" [blk .Mon 16 25 19 25 (some "SC-312")]

/-- The lab room of the buffer example. -/
def exLabRoom : Room := ⟨"SC-312", "Science Lab", RoomType.lab⟩

/-- Report of the lab-buffer example (buffer 30, actual gap 10). -/
def exLabRep : ConflictSummary :=
  computeConflicts [exLabA, exLabB] [] [exLabRoom] [] 30

/-- Degenerate-duration input: a proper occurrence Mon 10:00-11:00. -/
def exDegA : Section := mkSec "D1" "C1" "ii" [blk .Mon 10 0 11 0 none]

/-- Degenerate-duration input: a zero-length occurrence Mon 10:30-10:30, same
instructor. -/
def exDegB : Section := mkSec "D2" "C2" "ii" [blk .Mon 10 30 10 30 none]

/-- Report of the degenerate-occurrence input. -/
def exDegRep : ConflictSummary := computeConflicts [exDegA, exDegB] [] [] [] 0

/-- Negative-gap input: proper occurrence Mon 10:00-11:00 in lab room R. -/
def exNegA : Section := mkSec "E1" "C1" "i1" [blk .Mon 10 0 11 0 (some "R")]

/-- Negative-gap input: occurrence Mon 10:30-10:00 (end before start) in room R. -/
def exNegB : Section := mkSec "E2" "C2" "i2" [blk .Mon 10 30 10 0 (some "R")]

/-- The lab room of the negative-gap input. -/
def exNegRoom : Room := ⟨"R", "Lab R", RoomType.lab⟩

/-- Report of the negative-gap input (buffer 30). -/
def exNegRep : ConflictSummary :=
  computeConflicts [exNegA, exNegB] [] [exNegRoom] [] 30

/-- Trailing-underscore room id input: occurrence Mon 10:00-11:00 in room "A_". -/
def exUndA : Section := mkSec "F1" "C1" "i1" [blk .Mon 10 0 11 0 (some "A_")]

/-- Trailing-underscore room id input: overlapping occurrence Mon 10:30-11:30 in
room "A_". -/
def exUndB : Section := mkSec "F2" "C2" "i2" [blk .Mon 10 30 11 30 (some "A_")]

/-- The room whose id ends in a single underscore (and does not contain "__"). -/
def exUndRoom : Room := ⟨"A_", "Lab A", RoomType.lab⟩

/-- Report of the trailing-underscore input. -/
def exUndRep : ConflictSummary :=
  computeConflicts [exUndA, exUndB] [] [exUndRoom] [] 0

/-- Well-behaved room id input: occurrence Mon 10:00-11:00 in room "RM". -/
def exOkA : Section := mkSec "G1" "C1" "i1" [blk .Mon 10 0 11 0 (some "RM")]

/-- Well-behaved room id input: overlapping occurrence Mon 10:30-11:30 in room "RM". -/
def exOkB : Section := mkSec "G2" "C2" "i2" [blk .Mon 10 30 11 30 (some "RM")]

/-- Report of the well-behaved room id input. -/
def exOkRep : ConflictSummary := computeConflicts [exOkA, exOkB] [] [] [] 0

/-- Pathway requiring the two physics courses of the concrete pathway input. -/
def exPathway : Pathway := ⟨"pw1", "Pathway One", ["PHYS 210", "PHYS 210L"]⟩

/-- The only PHYS 210 offering, Mon 10:00-11:00. -/
def exPathA : Section := mkSec "PA" "PHYS 210" "i1" [blk .Mon 10 0 11 0 none]

/-- The only PHYS 210L offering, Mon 10:30-11:30 (conflicts with exPathA). -/
def exPathB : Section := mkSec "PB" "PHYS 210L" "i2" [blk .Mon 10 30 11 30 none]

/-- Report of the pathway all-combination input. -/
def exPathRep : ConflictSummary :=
  computeConflicts [exPathA, exPathB] [] [] [exPathway] 0

/-- Pathway requiring a course no section offers. -/
def exMissingPathway : Pathway := ⟨"pw2", "Pathway Two", ["CHEM 101"]⟩

/-- Report of the missing-course pathway input. -/
def exMissingRep : ConflictSummary := computeConflicts [] [] [] [exMissingPathway] 0

/-- All-degenerate input: a section whose single occurrence has zero duration. -/
def exDeg2A : Section := mkSec "H1" "C1" "ii" [blk .Mon 10 0 10 0 none]

/-- All-degenerate input: another section whose single occurrence ends before it
starts. -/
def exDeg2B : Section := mkSec "H2" "C2" "ii" [blk .Mon 9 30 9 0 none]

/-- Overlapping proper lab bookings: Mon 10:00-11:00 in room "L". -/
def exOvA : Section := mkSec "V1" "C1" "i1" [blk .Mon 10 0 11 0 (some "L")]

/-- Overlapping proper lab bookings: Mon 10:30-11:30 in room "L". -/
def exOvB : Section := mkSec "V2" "C2" "i2" [blk .Mon 10 30 11 30 (some "L")]

/-- The lab room of the overlapping-bookings input. -/
def exOvRoom : Room := ⟨"L", "Lab L", RoomType.lab⟩

/-- Kind-variation input: the Dr. Chen section X retyped as a lab section. -/
def exKindX : Section := { exChenX with kind := SectionKind.lab }

/-- Kind-variation input: the Dr. Chen section Y retyped as a seminar section. -/
def exKindY : Section := { exChenY with kind := SectionKind.seminar }

/-! Generic list lemmas. -/

theorem mem_listPairs {α : Type} {p : α × α} :
    ∀ {l : List α}, p ∈ listPairs l → p.1 ∈ l ∧ p.2 ∈ l := by
  intro l
  induction l with
  | nil => simp [listPairs]
  | cons x xs ih =>
    intro h
    rcases List.mem_append.mp h with h1 | h2
    · rcases List.mem_map.mp h1 with ⟨y, hy, hp⟩
      subst hp
      exact ⟨List.mem_cons_self x xs, List.mem_cons_of_mem x hy⟩
    · rcases ih h2 with ⟨h3, h4⟩
      exact ⟨List.mem_cons_of_mem x h3, List.mem_cons_of_mem x h4⟩

theorem listPairs_mem_or {α : Type} {a b : α} :
    ∀ {l : List α}, a ∈ l → b ∈ l → a ≠ b →
      (a, b) ∈ listPairs l ∨ (b, a) ∈ listPairs l := by
  intro l
  induction l with
  | nil => simp
  | cons x xs ih =>
    intro ha hb hne
    rcases List.mem_cons.mp ha with hax | hax
    · subst hax
      rcases List.mem_cons.mp hb with hbx | hbx
      · exact absurd hbx.symm (by simpa using hne)
      · exact Or.inl (List.mem_append.mpr (Or.inl (List.mem_map.mpr ⟨b, hbx, rfl⟩)))
    · rcases List.mem_cons.mp hb with hbx | hbx
      · subst hbx
        exact Or.inr (List.mem_append.mpr (Or.inl (List.mem_map.mpr ⟨a, hax, rfl⟩)))
      · rcases ih hax hbx hne with h | h
        · exact Or.inl (List.mem_append.mpr (Or.inr h))
        · exact Or.inr (List.mem_append.mpr (Or.inr h))

theorem pairwise_listPairs {α : Type} {R : α → α → Prop} :
    ∀ {l : List α}, l.Pairwise R → ∀ p ∈ listPairs l, R p.1 p.2 := by
  intro l
  induction l with
  | nil => simp [listPairs]
  | cons x xs ih =>
    intro hpw p hp
    rcases List.pairwise_cons.mp hpw with ⟨hx, hxs⟩
    rcases List.mem_append.mp hp with h1 | h2
    · rcases List.mem_map.mp h1 with ⟨y, hy, hpe⟩
      subst hpe
      exact hx y hy
    · exact ih hxs p h2

theorem length_listPairs {α : Type} : ∀ (l : List α),
    (listPairs l).length = l.length.choose 2 := by
  intro l
  induction l with
  | nil => simp [listPairs]
  | cons x xs ih =>
    simp only [listPairs, List.length_append, List.length_map, ih, List.length_cons]
    rw [Nat.choose_succ_succ, Nat.choose_one_right]

theorem zip_tail_sub_listPairs {α : Type} :
    ∀ {l : List α} {p : α × α}, p ∈ l.zip l.tail → p ∈ listPairs l := by
  intro l
  induction l with
  | nil => simp
  | cons a t ih =>
    intro p hp
    cases t with
    | nil => simp at hp
    | cons b rest =>
      simp only [List.tail_cons, List.zip_cons_cons, List.mem_cons] at hp
      rcases hp with hp | hp
      · subst hp
        exact List.mem_append.mpr (Or.inl (List.mem_map.mpr ⟨b, List.mem_cons_self _ _, rfl⟩))
      · have : p ∈ (b :: rest).zip (b :: rest).tail := by simpa using hp
        exact List.mem_append.mpr (Or.inr (ih this))

theorem length_filterMap_eq {α β : Type} {f : α → Option β} :
    ∀ {l : List α}, (∀ a ∈ l, (f a).isSome) → (l.filterMap f).length = l.length := by
  intro l
  induction l with
  | nil => simp
  | cons x xs ih =>
    intro h
    have hx := h x (List.mem_cons_self x xs)
    rcases Option.isSome_iff_exists.mp hx with ⟨b, hb⟩
    rw [List.filterMap_cons, hb]
    simp only [List.length_cons]
    rw [ih (fun a ha => h a (List.mem_cons_of_mem x ha))]

theorem mem_firstDedup : ∀ (l : List String) (x : String),
    x ∈ firstDedup l ↔ x ∈ l := by
  intro l
  induction l with
  | nil => simp [firstDedup]
  | cons y ys ih =>
    intro x
    rw [firstDedup]
    simp only [List.mem_cons]
    constructor
    · rintro (h | h)
      · exact Or.inl h
      · exact Or.inr ((ih x).mp (List.mem_filter.mp h).1)
    · rintro (h | h)
      · exact Or.inl h
      · by_cases hxy : x = y
        · exact Or.inl hxy
        · exact Or.inr (List.mem_filter.mpr ⟨(ih x).mpr h, by simpa using hxy⟩)

theorem nodup_firstDedup : ∀ (l : List String), (firstDedup l).Nodup := by
  intro l
  induction l with
  | nil => simp [firstDedup]
  | cons y ys ih =>
    rw [firstDedup]
    refine List.nodup_cons.mpr ⟨?_, ih.filter _⟩
    intro hy
    have h2 := (List.mem_filter.mp hy).2
    simp at h2

theorem filter_flatMap_single {α : Type} {keys : List String} {F : String → List α}
    {keyOf : α → String} {iid : String}
    (hnd : keys.Nodup) (hF : ∀ k, ∀ e ∈ F k, keyOf e = k) :
    ((keys.flatMap F).filter (fun e => keyOf e == iid)).length
      = if iid ∈ keys then (F iid).length else 0 := by
  induction keys with
  | nil => simp
  | cons k ks ih =>
    rcases List.nodup_cons.mp hnd with ⟨hk, hks⟩
    rw [List.flatMap_cons, List.filter_append, List.length_append, ih hks]
    by_cases hik : iid = k
    · subst hik
      have h1 : (F iid).filter (fun e => keyOf e == iid) = F iid := by
        apply List.filter_eq_self.mpr
        intro e he
        simpa using hF iid e he
      rw [h1]
      simp [hk]
    · have h1 : (F k).filter (fun e => keyOf e == iid) = [] := by
        apply List.filter_eq_nil_iff.mpr
        intro e he
        have hk2 := hF k e he
        simp only [hk2, beq_iff_eq]
        exact fun h => hik h.symm
      rw [h1]
      simp only [List.length_nil, Nat.zero_add, List.mem_cons]
      by_cases hiks : iid ∈ ks
      · simp [hiks, hik]
      · simp [hiks, hik]

/-! Characterizations of the detector outputs. -/

/-- Membership in a filterMap whose function is a guarded constructor. -/
theorem mem_filterMap_guard {α β : Type} {l : List α} {P : α → Prop} [DecidablePred P]
    {g : α → β} {e : β} :
    e ∈ l.filterMap (fun a => if P a then some (g a) else none) ↔
      ∃ a ∈ l, P a ∧ e = g a := by
  rw [List.mem_filterMap]
  constructor
  · rintro ⟨a, ha, hfa⟩
    by_cases hc : P a
    · rw [if_pos hc] at hfa
      exact ⟨a, ha, hc, (Option.some.inj hfa).symm⟩
    · rw [if_neg hc] at hfa
      cases hfa
  · rintro ⟨a, ha, hc, he⟩
    exact ⟨a, ha, by rw [if_pos hc, he]⟩

/-- Membership characterization of one instructor group's conflict list. -/
theorem mem_instructorConflictsFor {instructors : List Instructor} {iid : String}
    {slots : List Slot} {e : InstructorConflict} :
    e ∈ instructorConflictsFor instructors iid slots ↔
      ∃ p ∈ listPairs slots,
        (p.1.block.day = p.2.block.day ∧
         minutesFromTime p.1.block.startTime < minutesFromTime p.2.block.endTime ∧
         minutesFromTime p.2.block.startTime < minutesFromTime p.1.block.endTime) ∧
        e = ⟨iid, nameOr ((instructorMapGet instructors iid).map Instructor.name) iid,
             p.1.sec, p.2.sec, p.1.block, p.2.block⟩ := by
  unfold instructorConflictsFor
  exact mem_filterMap_guard

/-- Membership characterization of one room group's direct-conflict list. -/
theorem mem_roomConflictsFor {rooms : List Room} {roomId dayStr : String}
    {sorted : List Slot} {e : RoomConflict} :
    e ∈ roomConflictsFor rooms roomId dayStr sorted ↔
      ∃ p ∈ listPairs sorted,
        (minutesFromTime p.1.block.startTime < minutesFromTime p.2.block.endTime ∧
         minutesFromTime p.2.block.startTime < minutesFromTime p.1.block.endTime) ∧
        e = ⟨roomId, nameOr ((roomMapGet rooms roomId).map Room.name) roomId, dayStr,
             p.1.sec, p.2.sec, p.1.block, p.2.block⟩ := by
  unfold roomConflictsFor
  exact mem_filterMap_guard

/-- Membership characterization of the buffer walk: one entry per consecutive sorted
pair whose gap falls below the configured buffer. -/
theorem mem_bufferWalk {roomId roomName dayStr : String} {buf : Int}
    {e : LabBufferConflict} : ∀ {l : List Slot},
    e ∈ bufferWalk roomId roomName dayStr buf l ↔
      ∃ ab ∈ l.zip l.tail,
        minutesFromTime ab.2.block.startTime - minutesFromTime ab.1.block.endTime < buf ∧
        e = ⟨roomId, roomName, dayStr, ab.1.sec, ab.2.sec, ab.1.block, ab.2.block,
             minutesFromTime ab.2.block.startTime - minutesFromTime ab.1.block.endTime⟩ := by
  intro l
  induction l with
  | nil => simp [bufferWalk]
  | cons a t ih =>
    cases t with
    | nil => simp [bufferWalk]
    | cons b rest =>
      rw [bufferWalk]
      constructor
      · intro h
        rcases List.mem_append.mp h with h1 | h1
        · by_cases hg : minutesFromTime b.block.startTime - minutesFromTime a.block.endTime < buf
          · rw [if_pos hg] at h1
            have he : e = ⟨roomId, roomName, dayStr, a.sec, b.sec, a.block, b.block,
                minutesFromTime b.block.startTime - minutesFromTime a.block.endTime⟩ := by
              simpa using h1
            exact ⟨(a, b), by simp, hg, he⟩
          · rw [if_neg hg] at h1
            simp at h1
        · rcases ih.mp h1 with ⟨ab, hab, hg, he⟩
          refine ⟨ab, ?_, hg, he⟩
          simp only [List.tail_cons, List.zip_cons_cons, List.mem_cons]
          right
          simpa using hab
      · rintro ⟨ab, hab, hg, he⟩
        simp only [List.tail_cons, List.zip_cons_cons, List.mem_cons] at hab
        rcases hab with hab | hab
        · subst hab
          apply List.mem_append.mpr
          left
          rw [if_pos hg]
          simp [he]
        · apply List.mem_append.mpr
          right
          exact ih.mpr ⟨ab, by simpa using hab, hg, he⟩

/-- The instructor-conflict list of the report, unfolded. -/
theorem instructorConflicts_eq (sections : List Section) (instructors : List Instructor)
    (rooms : List Room) (pathways : List Pathway) (buf : Int) :
    (computeConflicts sections instructors rooms pathways buf).instructorConflicts
      = (instructorIds sections).flatMap fun iid =>
          instructorConflictsFor instructors iid (instructorGroup sections iid) := rfl

/-- Membership in the report's room-conflict list, decomposed by group key. -/
theorem mem_report_roomConflicts {sections : List Section} {instructors : List Instructor}
    {rooms : List Room} {pathways : List Pathway} {buf : Int} {e : RoomConflict} :
    e ∈ (computeConflicts sections instructors rooms pathways buf).roomConflicts ↔
      ∃ k ∈ roomKeys sections,
        e ∈ (processRoomGroup rooms buf k (roomGroup sections k)).1 := by
  show e ∈ (((roomKeys sections).map fun k =>
      processRoomGroup rooms buf k (roomGroup sections k)).flatMap Prod.fst) ↔ _
  rw [List.flatMap_map]
  exact List.mem_flatMap

/-- Membership in the report's buffer-violation list, decomposed by group key. -/
theorem mem_report_bufferConflicts {sections : List Section} {instructors : List Instructor}
    {rooms : List Room} {pathways : List Pathway} {buf : Int} {e : LabBufferConflict} :
    e ∈ (computeConflicts sections instructors rooms pathways buf).labBufferConflicts ↔
      ∃ k ∈ roomKeys sections,
        e ∈ (processRoomGroup rooms buf k (roomGroup sections k)).2 := by
  show e ∈ (((roomKeys sections).map fun k =>
      processRoomGroup rooms buf k (roomGroup sections k)).flatMap Prod.snd) ↔ _
  rw [List.flatMap_map]
  exact List.mem_flatMap

/-- sectionsOverlap agrees with the existential statement of the spec's conflict rule. -/
theorem sectionsOverlap_iff {a b : Section} :
    sectionsOverlap a b = true ↔
      ∃ blockA ∈ a.meetingBlocks, ∃ blockB ∈ b.meetingBlocks,
        blockA.day = blockB.day ∧
        minutesFromTime blockA.startTime < minutesFromTime blockB.endTime ∧
        minutesFromTime blockB.startTime < minutesFromTime blockA.endTime := by
  unfold sectionsOverlap
  split
  next h =>
    simp only [Bool.false_eq_true, false_iff]
    rintro ⟨bA, hbA, bB, hbB, hrest⟩
    have h2 : a.meetingBlocks.isEmpty = true ∨ b.meetingBlocks.isEmpty = true := by
      simpa using h
    rcases h2 with he | he
    · rw [List.isEmpty_iff.mp he] at hbA
      simp at hbA
    · rw [List.isEmpty_iff.mp he] at hbB
      simp at hbB
  next h =>
    simp only [List.any_eq_true, Bool.and_eq_true, decide_eq_true_eq, and_assoc]

/-- sectionsOverlap is symmetric in its two sections. -/
theorem sectionsOverlap_comm (a b : Section) :
    sectionsOverlap a b = sectionsOverlap b a := by
  by_cases hab : sectionsOverlap a b = true
  · rcases sectionsOverlap_iff.mp hab with ⟨bA, hbA, bB, hbB, hd, h3, h4⟩
    have hba : sectionsOverlap b a = true :=
      sectionsOverlap_iff.mpr ⟨bB, hbB, bA, hbA, hd.symm, h4, h3⟩
    rw [hab, hba]
  · have hba : ¬ sectionsOverlap b a = true := by
      intro hba
      rcases sectionsOverlap_iff.mp hba with ⟨bB, hbB, bA, hbA, hd, h3, h4⟩
      exact hab (sectionsOverlap_iff.mpr ⟨bA, hbA, bB, hbB, hd.symm, h4, h3⟩)
    rw [Bool.not_eq_true] at hab hba
    rw [hab, hba]

/-- Sortedness of the room-group sort. -/
theorem sortSlots_sorted (l : List Slot) : (sortSlots l).Pairwise slotLE :=
  List.sorted_insertionSort slotLE l

/-- The room-group sort permutes its input. -/
theorem sortSlots_perm (l : List Slot) : List.Perm (sortSlots l) l :=
  List.perm_insertionSort slotLE l

/-- Characterization of the pairwise pathway pass producing an issue. -/
theorem pairIssue_eq_some_iff {sections : List Section} {p : Pathway}
    {courseA courseB : String} {issue : PathwayIssue} :
    pairIssue sections p courseA courseB = some issue ↔
      (sectionsFor sections courseA).isEmpty = false ∧
      (sectionsFor sections courseB).isEmpty = false ∧
      (∀ sA ∈ sectionsFor sections courseA, ∀ sB ∈ sectionsFor sections courseB,
        sectionsOverlap sA sB = true) ∧
      issue = ⟨p.id, p.name,
        courseA ++ " conflicts with " ++ courseB ++ " for all available sections"⟩ := by
  unfold pairIssue
  constructor
  · intro h
    split at h
    next hemp => cases h
    next hemp =>
      have hemp2 : (sectionsFor sections courseA).isEmpty = false ∧
          (sectionsFor sections courseB).isEmpty = false := by
        constructor <;>
          [ cases hA : (sectionsFor sections courseA).isEmpty;
            cases hB : (sectionsFor sections courseB).isEmpty ] <;>
          simp_all
      split at h
      next hall =>
        rw [List.all_eq_true] at hall
        refine ⟨hemp2.1, hemp2.2, ?_, ?_⟩
        · intro sA hsA sB hsB
          have h5 := hall sA hsA
          rw [List.all_eq_true] at h5
          exact h5 sB hsB
        · exact (Option.some.inj h).symm
      next hall => cases h
  · rintro ⟨h1, h2, h3, h4⟩
    have hemp : ((sectionsFor sections courseA).isEmpty
        || (sectionsFor sections courseB).isEmpty) = false := by
      rw [h1, h2]
      rfl
    rw [if_neg (by rw [hemp]; exact Bool.false_ne_true)]
    have hall : ((sectionsFor sections courseA).all fun sA =>
        (sectionsFor sections courseB).all fun sB => sectionsOverlap sA sB) = true := by
      rw [List.all_eq_true]
      intro sA hsA
      rw [List.all_eq_true]
      intro sB hsB
      exact h3 sA hsA sB hsB
    rw [if_pos hall, h4]

/-! Lemmas about the room grouping key and its split. -/

theorem splitUUChars_noSep : ∀ {d : List Char}, hasUUChars d = false →
    splitUUChars d = [d] := by
  intro d
  induction d with
  | nil => intro h; rfl
  | cons c cs ih =>
    intro h
    cases cs with
    | nil => rfl
    | cons c2 cs2 =>
      have hsep : ¬(c = '_' ∧ c2 = '_') := by
        intro ⟨hc, hc2⟩
        subst hc; subst hc2
        simp [hasUUChars] at h
      have hrest : hasUUChars (c2 :: cs2) = false := by
        simp only [hasUUChars, Bool.or_eq_false_iff] at h
        exact h.2
      rw [splitUUChars, if_neg hsep, ih hrest]

theorem splitUUChars_sep : ∀ {r : List Char} (d : List Char),
    hasUUChars r = false → r.getLast? ≠ some '_' →
    splitUUChars (r ++ '_' :: '_' :: d) = r :: splitUUChars d := by
  intro r
  induction r with
  | nil =>
    intro d _ _
    show splitUUChars ('_' :: '_' :: d) = [] :: splitUUChars d
    rw [splitUUChars, if_pos ⟨rfl, rfl⟩]
  | cons c cs ih =>
    intro d hUU hend
    cases cs with
    | nil =>
      have hc : c ≠ '_' := by
        intro hc
        exact hend (by rw [hc]; rfl)
      show splitUUChars (c :: '_' :: '_' :: d) = [c] :: splitUUChars d
      rw [splitUUChars, if_neg (by intro hx; exact hc hx.1)]
      have : splitUUChars ('_' :: '_' :: d) = [] :: splitUUChars d := by
        rw [splitUUChars, if_pos ⟨rfl, rfl⟩]
      rw [this]
    | cons c2 cs2 =>
      have hsep : ¬(c = '_' ∧ c2 = '_') := by
        intro ⟨hc, hc2⟩
        subst hc; subst hc2
        simp [hasUUChars] at hUU
      have hrest : hasUUChars (c2 :: cs2) = false := by
        simp only [hasUUChars, Bool.or_eq_false_iff] at hUU
        exact hUU.2
      have hend2 : (c2 :: cs2).getLast? ≠ some '_' := by
        intro hx
        apply hend
        rw [← hx]
        rfl
      show splitUUChars (c :: ((c2 :: cs2) ++ '_' :: '_' :: d)) = _
      rw [List.cons_append, splitUUChars, if_neg hsep]
      have hsub : splitUUChars (c2 :: (cs2 ++ '_' :: '_' :: d))
          = (c2 :: cs2) :: splitUUChars d := ih d hrest hend2
      rw [hsub]

theorem string_mk_data (s : String) : String.mk s.data = s := rfl

theorem splitUU_key (rid : String) (d : Day) (hUU : containsUU rid = false)
    (hend : endsUnd rid = false) :
    splitUU (rid ++ "__" ++ d.str) = [rid, d.str] := by
  unfold splitUU
  have hdata : (rid ++ "__" ++ d.str).data = rid.data ++ '_' :: '_' :: (d.str).data := by
    simp [String.data_append]
  have hend2 : rid.data.getLast? ≠ some '_' := by
    intro hx
    unfold endsUnd at hend
    rw [hx] at hend
    simp at hend
  have hnod : hasUUChars (d.str).data = false := by cases d <;> rfl
  rw [hdata, splitUUChars_sep (d.str).data hUU hend2, splitUUChars_noSep hnod]
  simp [string_mk_data]

theorem day_str_inj {d1 d2 : Day} : d1.str = d2.str → d1 = d2 := by
  cases d1 <;> cases d2 <;> intro h <;> first
  | rfl
  | exact absurd h (by decide)

theorem day_str_data_len (d : Day) : (d.str).data.length = 3 := by
  cases d <;> rfl

/-- Characterization of a block contributing a room grouping key: its roomId must be
present and truthy (non-empty), and the key is the id/day template string. -/
theorem roomKeyOf_eq_some {b : MeetingBlock} {k : String} :
    roomKeyOf b = some k ↔
      ∃ rid, b.roomId = some rid ∧ ¬ rid = "" ∧ k = rid ++ "__" ++ b.day.str := by
  unfold roomKeyOf
  rcases hb : b.roomId with _ | rid
  · simp [roomIdTruthy]
  · by_cases hr : rid = ""
    · subst hr
      simp [roomIdTruthy]
    · have ht : roomIdTruthy (some rid) = true := by simp [roomIdTruthy, hr]
      rw [if_pos ht]
      simp only [Option.map_some', Option.some.injEq]
      constructor
      · intro h
        exact ⟨rid, rfl, hr, h.symm⟩
      · rintro ⟨rid', hrid', hr', hk'⟩
        subst hrid'
        exact hk'.symm

/-- Two blocks mapped into the same room group share the same day (day strings all
have three characters, so the key suffix determines the day even for adversarial
room ids). -/
theorem roomKey_day_eq {b1 b2 : MeetingBlock} {k : String}
    (h1 : roomKeyOf b1 = some k) (h2 : roomKeyOf b2 = some k) : b1.day = b2.day := by
  rcases roomKeyOf_eq_some.mp h1 with ⟨rid1, hb1, hr1, hk1⟩
  rcases roomKeyOf_eq_some.mp h2 with ⟨rid2, hb2, hr2, hk2⟩
  have hk : rid1 ++ "__" ++ b1.day.str = rid2 ++ "__" ++ b2.day.str := by
    rw [← hk1, ← hk2]
  have hdat : (rid1.data ++ '_' :: '_' :: (b1.day.str).data)
      = (rid2.data ++ '_' :: '_' :: (b2.day.str).data) := by
    have := congrArg String.data hk
    simpa [String.data_append] using this
  have hdat2 : ((rid1.data ++ ['_', '_']) ++ (b1.day.str).data)
      = ((rid2.data ++ ['_', '_']) ++ (b2.day.str).data) := by
    simpa [List.append_assoc] using hdat
  have hlen : ((b1.day.str).data).length = ((b2.day.str).data).length := by
    rw [day_str_data_len, day_str_data_len]
  have := List.append_inj_right' hdat2 hlen
  apply day_str_inj
  have hmk := congrArg String.mk this
  simpa [string_mk_data] using hmk

/-- Membership in the flat slot traversal. -/
theorem mem_allSlots {sections : List Section} {sl : Slot} :
    sl ∈ allSlots sections ↔
      ∃ s ∈ sections, sl.sec = s ∧ sl.block ∈ s.meetingBlocks := by
  unfold allSlots
  rw [List.mem_flatMap]
  constructor
  · rintro ⟨s, hs, hsl⟩
    rcases List.mem_map.mp hsl with ⟨b, hb, hbe⟩
    subst hbe
    exact ⟨s, hs, rfl, hb⟩
  · rintro ⟨s, hs, hsec, hb⟩
    refine ⟨s, hs, List.mem_map.mpr ⟨sl.block, hb, ?_⟩⟩
    cases sl
    cases hsec
    rfl

/-! Further structural facts about the groupings and the derived id set. -/

/-- Every entry of one instructor group's conflict list carries that group's id. -/
theorem instructorConflictsFor_id {instructors : List Instructor} {iid : String}
    {slots : List Slot} {e : InstructorConflict}
    (h : e ∈ instructorConflictsFor instructors iid slots) : e.instructorId = iid := by
  rcases mem_instructorConflictsFor.mp h with ⟨p, hp, hc, he⟩
  rw [he]

/-- Slots of one room group satisfy the group's key equation. -/
theorem roomGroup_key {sections : List Section} {k : String} {sl : Slot}
    (h : sl ∈ roomGroup sections k) : roomKeyOf sl.block = some k := by
  have := (List.mem_filter.mp h).2
  simpa using this

/-- Slots of one room group come from the flat traversal. -/
theorem roomGroup_sub {sections : List Section} {k : String} {sl : Slot}
    (h : sl ∈ roomGroup sections k) : sl ∈ allSlots sections :=
  (List.mem_filter.mp h).1

/-- Slots of one instructor group carry that instructor id. -/
theorem instructorGroup_id {sections : List Section} {iid : String} {sl : Slot}
    (h : sl ∈ instructorGroup sections iid) : sl.sec.instructorId = iid := by
  have := (List.mem_filter.mp h).2
  simpa using this

/-- The direct-conflict component of one room group's processing. -/
theorem processRoomGroup_fst (rooms : List Room) (buf : Int) (k : String)
    (slots : List Slot) :
    (processRoomGroup rooms buf k slots).1
      = roomConflictsFor rooms ((splitUU k).getD 0 "") ((splitUU k).getD 1 "")
          (sortSlots slots) := rfl

/-- The buffer component of one room group's processing. -/
theorem processRoomGroup_snd (rooms : List Room) (buf : Int) (k : String)
    (slots : List Slot) :
    (processRoomGroup rooms buf k slots).2
      = match roomMapGet rooms ((splitUU k).getD 0 "") with
        | some room =>
          if room.roomType = RoomType.lab then
            bufferWalk ((splitUU k).getD 0 "") room.name ((splitUU k).getD 1 "") buf
              (sortSlots slots)
          else []
        | none => [] := rfl

/-- Membership after folding double inserts over a list, as the source's Set building
forEach loops do. -/
theorem mem_foldl_insert2 {α : Type} (fA fB : α → String) :
    ∀ (l : List α) (init : Finset String) (x : String),
      (x ∈ l.foldl (fun acc e => insert (fB e) (insert (fA e) acc)) init) ↔
        x ∈ init ∨ ∃ e ∈ l, x = fA e ∨ x = fB e := by
  intro l
  induction l with
  | nil => simp
  | cons a t ih =>
    intro init x
    rw [List.foldl_cons, ih]
    simp only [Finset.mem_insert, List.mem_cons]
    constructor
    · rintro ((h | h | h) | ⟨e, he, hx⟩)
      · exact Or.inr ⟨a, Or.inl rfl, Or.inr h⟩
      · exact Or.inr ⟨a, Or.inl rfl, Or.inl h⟩
      · exact Or.inl h
      · exact Or.inr ⟨e, Or.inr he, hx⟩
    · rintro (h | ⟨e, (he | he), hx⟩)
      · exact Or.inl (Or.inr (Or.inr h))
      · subst he
        rcases hx with hx | hx
        · exact Or.inl (Or.inr (Or.inl hx))
        · exact Or.inl (Or.inl hx)
      · exact Or.inr ⟨e, he, hx⟩

/-- Membership in the derived conflicted-section-id set. -/
theorem mem_conflictSectionIds {summary : ConflictSummary} {x : String} :
    x ∈ conflictSectionIds summary ↔
      (∃ e ∈ summary.instructorConflicts, x = e.sectionA.id ∨ x = e.sectionB.id) ∨
      (∃ e ∈ summary.roomConflicts, x = e.sectionA.id ∨ x = e.sectionB.id) ∨
      (∃ e ∈ summary.labBufferConflicts,
        x = e.firstSection.id ∨ x = e.secondSection.id) := by
  have h : conflictSectionIds summary
      = summary.labBufferConflicts.foldl
          (fun acc item => insert item.secondSection.id (insert item.firstSection.id acc))
          (summary.roomConflicts.foldl
            (fun acc item => insert item.sectionB.id (insert item.sectionA.id acc))
            (summary.instructorConflicts.foldl
              (fun acc item => insert item.sectionB.id (insert item.sectionA.id acc))
              ∅)) := rfl
  rw [h, mem_foldl_insert2 (fun e : LabBufferConflict => e.firstSection.id)
        (fun e : LabBufferConflict => e.secondSection.id),
      mem_foldl_insert2 (fun e : RoomConflict => e.sectionA.id)
        (fun e : RoomConflict => e.sectionB.id),
      mem_foldl_insert2 (fun e : InstructorConflict => e.sectionA.id)
        (fun e : InstructorConflict => e.sectionB.id)]
  simp only [Finset.not_mem_empty, false_or]
  exact or_assoc

/-! Claim theorems. -/

/-- The factored overlap rule, unfolded to its two strict comparisons. -/
theorem overlaps_eq_true {a b c d : Int} : overlaps a b c d = true ↔ a < d ∧ c < b := by
  simp [overlaps]

/-- C10: the overlap predicate is symmetric in its two intervals: for all integer
times a, b, c, d, overlaps(a, b, c, d) equals overlaps(c, d, a, b); accordingly the
source's sectionsOverlap is symmetric in its two sections. -/
theorem spec_c10 :
    (∀ a b c d : Int, overlaps a b c d = overlaps c d a b) ∧
    (∀ s t : Section, sectionsOverlap s t = sectionsOverlap t s) := by
  constructor
  · intro a b c d
    unfold overlaps
    exact Bool.and_comm _ _
  · exact sectionsOverlap_comm

/-- C5: every detector uses the single half-open overlap rule: each emitted
instructor-conflict and room-conflict pair is same-day and satisfies
overlaps(aStart, aEnd, bStart, bEnd), and therefore never pairs an occurrence ending
at a given minute with one starting at exactly that minute; the pathway
section-conflict test is the same rule lifted over occurrence pairs. -/
theorem spec_c5 (sections : List Section) (instructors : List Instructor)
    (rooms : List Room) (pathways : List Pathway) (buf : Int) :
    (∀ e ∈ (computeConflicts sections instructors rooms pathways buf).instructorConflicts,
      e.blockA.day = e.blockB.day ∧
      overlaps (minutesFromTime e.blockA.startTime) (minutesFromTime e.blockA.endTime)
        (minutesFromTime e.blockB.startTime) (minutesFromTime e.blockB.endTime) = true ∧
      minutesFromTime e.blockA.endTime ≠ minutesFromTime e.blockB.startTime ∧
      minutesFromTime e.blockB.endTime ≠ minutesFromTime e.blockA.startTime) ∧
    (∀ e ∈ (computeConflicts sections instructors rooms pathways buf).roomConflicts,
      e.blockA.day = e.blockB.day ∧
      overlaps (minutesFromTime e.blockA.startTime) (minutesFromTime e.blockA.endTime)
        (minutesFromTime e.blockB.startTime) (minutesFromTime e.blockB.endTime) = true ∧
      minutesFromTime e.blockA.endTime ≠ minutesFromTime e.blockB.startTime ∧
      minutesFromTime e.blockB.endTime ≠ minutesFromTime e.blockA.startTime) ∧
    (∀ a b : Section, sectionsOverlap a b = true ↔
      ∃ blockA ∈ a.meetingBlocks, ∃ blockB ∈ b.meetingBlocks,
        blockA.day = blockB.day ∧
        overlaps (minutesFromTime blockA.startTime) (minutesFromTime blockA.endTime)
          (minutesFromTime blockB.startTime) (minutesFromTime blockB.endTime) = true) := by
  refine ⟨?_, ?_, ?_⟩
  · intro e he
    rw [instructorConflicts_eq, List.mem_flatMap] at he
    rcases he with ⟨iid, hid, he⟩
    rcases mem_instructorConflictsFor.mp he with ⟨p, hp, ⟨hd, h1, h2⟩, hee⟩
    subst hee
    exact ⟨hd, overlaps_eq_true.mpr ⟨h1, h2⟩, ne_of_gt h2, ne_of_gt h1⟩
  · intro e he
    rcases mem_report_roomConflicts.mp he with ⟨k, hk, he2⟩
    rw [processRoomGroup_fst] at he2
    rcases mem_roomConflictsFor.mp he2 with ⟨p, hp, ⟨h1, h2⟩, hee⟩
    have hmem := mem_listPairs hp
    have hm1 : p.1 ∈ roomGroup sections k :=
      (sortSlots_perm _).mem_iff.mp hmem.1
    have hm2 : p.2 ∈ roomGroup sections k :=
      (sortSlots_perm _).mem_iff.mp hmem.2
    have hd := roomKey_day_eq (roomGroup_key hm1) (roomGroup_key hm2)
    subst hee
    exact ⟨hd, overlaps_eq_true.mpr ⟨h1, h2⟩, ne_of_gt h2, ne_of_gt h1⟩
  · intro a b
    rw [sectionsOverlap_iff]
    constructor
    · rintro ⟨bA, hbA, bB, hbB, hd, h1, h2⟩
      exact ⟨bA, hbA, bB, hbB, hd, overlaps_eq_true.mpr ⟨h1, h2⟩⟩
    · rintro ⟨bA, hbA, bB, hbB, hd, ho⟩
      rcases overlaps_eq_true.mp ho with ⟨h1, h2⟩
      exact ⟨bA, hbA, bB, hbB, hd, h1, h2⟩

/-- C5 witness: the Dr. Chen double booking, evaluated concretely: the single emitted
pair is same-day Tue, satisfies the half-open rule, and touches no endpoint. -/
theorem spec_c5_witness :
    (blk Day.Tue 13 0 15 0 none).day = (blk Day.Tue 14 0 14 30 none).day ∧
    overlaps (minutesFromTime (blk Day.Tue 13 0 15 0 none).startTime)
      (minutesFromTime (blk Day.Tue 13 0 15 0 none).endTime)
      (minutesFromTime (blk Day.Tue 14 0 14 30 none).startTime)
      (minutesFromTime (blk Day.Tue 14 0 14 30 none).endTime) = true ∧
    minutesFromTime (blk Day.Tue 13 0 15 0 none).endTime
      ≠ minutesFromTime (blk Day.Tue 14 0 14 30 none).startTime ∧
    minutesFromTime (blk Day.Tue 14 0 14 30 none).endTime
      ≠ minutesFromTime (blk Day.Tue 13 0 15 0 none).startTime :=
  (spec_c5 [exChenX, exChenY] [⟨"chen", "Dr. Chen"⟩] [] [] 30).1
    ⟨"chen", "Dr. Chen", exChenX, exChenY, blk Day.Tue 13 0 15 0 none,
     blk Day.Tue 14 0 14 30 none⟩ (by decide)

/-- C3 counterexample: a zero-duration occurrence (Mon 10:30-10:30) lying strictly
inside a proper occurrence of the same instructor IS reported as an instructor
conflict, so an occurrence whose end is not strictly after its start is not excluded
from positive conflict results. -/
theorem spec_c3_cex :
    ∃ e ∈ exDegRep.instructorConflicts,
      minutesFromTime e.blockB.endTime ≤ minutesFromTime e.blockB.startTime := by
  decide

/-- C3 (amended): the engine applies the raw half-open comparison with no special
exclusion of degenerate occurrences; an occurrence of non-positive duration can
still conflict with a proper occurrence (when its start lies strictly inside it),
but a pair of occurrences that BOTH have non-positive duration is never reported by
any detector, and two sections all of whose occurrences have non-positive duration
never section-conflict. -/
theorem spec_c3 (sections : List Section) (instructors : List Instructor)
    (rooms : List Room) (pathways : List Pathway) (buf : Int) :
    (∀ e ∈ (computeConflicts sections instructors rooms pathways buf).instructorConflicts,
      ¬(minutesFromTime e.blockA.endTime ≤ minutesFromTime e.blockA.startTime ∧
        minutesFromTime e.blockB.endTime ≤ minutesFromTime e.blockB.startTime)) ∧
    (∀ e ∈ (computeConflicts sections instructors rooms pathways buf).roomConflicts,
      ¬(minutesFromTime e.blockA.endTime ≤ minutesFromTime e.blockA.startTime ∧
        minutesFromTime e.blockB.endTime ≤ minutesFromTime e.blockB.startTime)) ∧
    (∀ a b : Section,
      (∀ blockA ∈ a.meetingBlocks,
        minutesFromTime blockA.endTime ≤ minutesFromTime blockA.startTime) →
      (∀ blockB ∈ b.meetingBlocks,
        minutesFromTime blockB.endTime ≤ minutesFromTime blockB.startTime) →
      sectionsOverlap a b = false) := by
  refine ⟨?_, ?_, ?_⟩
  · intro e he
    rcases (spec_c5 sections instructors rooms pathways buf).1 e he with ⟨hd, ho, h3, h4⟩
    rcases overlaps_eq_true.mp ho with ⟨h1, h2⟩
    rintro ⟨hA, hB⟩
    omega
  · intro e he
    rcases (spec_c5 sections instructors rooms pathways buf).2.1 e he with ⟨hd, ho, h3, h4⟩
    rcases overlaps_eq_true.mp ho with ⟨h1, h2⟩
    rintro ⟨hA, hB⟩
    omega
  · intro a b hA hB
    cases hso : sectionsOverlap a b
    · rfl
    · rcases sectionsOverlap_iff.mp hso with ⟨bA, hbA, bB, hbB, hd, h1, h2⟩
      have h3 := hA bA hbA
      have h4 := hB bB hbB
      omega

/-- C3 witness: two sections whose only occurrences have non-positive duration never
section-conflict, by the amended theorem at a concrete input. -/
theorem spec_c3_witness : sectionsOverlap exDeg2A exDeg2B = false :=
  (spec_c3 [] [] [] [] 0).2.2 exDeg2A exDeg2B (by decide) (by decide)

/-- C7: the derived conflictedSectionIds set holds exactly the section identifiers
appearing as either side of some instructor conflict, room conflict, or buffer
violation; pathway issues contribute nothing. -/
theorem spec_c7 (sections : List Section) (instructors : List Instructor)
    (rooms : List Room) (pathways : List Pathway) (buf : Int) (x : String) :
    x ∈ conflictSectionIds (computeConflicts sections instructors rooms pathways buf) ↔
      (∃ e ∈ (computeConflicts sections instructors rooms pathways buf).instructorConflicts,
        x = e.sectionA.id ∨ x = e.sectionB.id) ∨
      (∃ e ∈ (computeConflicts sections instructors rooms pathways buf).roomConflicts,
        x = e.sectionA.id ∨ x = e.sectionB.id) ∨
      (∃ e ∈ (computeConflicts sections instructors rooms pathways buf).labBufferConflicts,
        x = e.firstSection.id ∨ x = e.secondSection.id) :=
  mem_conflictSectionIds

/-- C7 witness: the id of the Dr. Chen section X is in the derived set of the concrete
report, by the main theorem applied to its instructor-conflict entry. -/
theorem spec_c7_witness :
    "X" ∈ conflictSectionIds (computeConflicts [exChenX, exChenY]
      [⟨"chen", "Dr. Chen"⟩] [] [] 30) :=
  (spec_c7 [exChenX, exChenY] [⟨"chen", "Dr. Chen"⟩] [] [] 30 "X").mpr
    (Or.inl ⟨⟨"chen", "Dr. Chen", exChenX, exChenY, blk Day.Tue 13 0 15 0 none,
      blk Day.Tue 14 0 14 30 none⟩, by decide, Or.inl (by decide)⟩)

/-- C4: for an instructor whose occurrences are all same-day and pairwise overlapping,
the emitted instructor-conflict entries for that instructor number exactly
N*(N-1)/2, one per unordered pair, with no further deduplication. -/
theorem spec_c4 (sections : List Section) (instructors : List Instructor)
    (rooms : List Room) (pathways : List Pathway) (buf : Int) (iid : String)
    (hpw : (instructorGroup sections iid).Pairwise fun a b =>
      a.block.day = b.block.day ∧
      minutesFromTime a.block.startTime < minutesFromTime b.block.endTime ∧
      minutesFromTime b.block.startTime < minutesFromTime a.block.endTime) :
    ((computeConflicts sections instructors rooms pathways buf).instructorConflicts.filter
      fun e => e.instructorId == iid).length
      = (instructorGroup sections iid).length
        * ((instructorGroup sections iid).length - 1) / 2 := by
  rw [instructorConflicts_eq]
  have hF : ∀ (k : String), ∀ e ∈ instructorConflictsFor instructors k
      (instructorGroup sections k), e.instructorId = k :=
    fun k e he => instructorConflictsFor_id he
  have hnd : (instructorIds sections).Nodup := nodup_firstDedup _
  rw [filter_flatMap_single hnd hF]
  by_cases hin : iid ∈ instructorIds sections
  · rw [if_pos hin]
    unfold instructorConflictsFor
    rw [length_filterMap_eq, length_listPairs, Nat.choose_two_right]
    intro pr hpr
    have hc := pairwise_listPairs hpw pr hpr
    rw [if_pos hc]
    rfl
  · rw [if_neg hin]
    have hg : instructorGroup sections iid = [] := by
      apply List.filter_eq_nil_iff.mpr
      intro sl hsl hbeq
      apply hin
      exact (mem_firstDedup _ _).mpr (List.mem_map.mpr ⟨sl, hsl, by simpa using hbeq⟩)
    rw [hg]
    rfl

/-- C4 witness: Dr. Chen with two mutually overlapping Tue occurrences yields
exactly 2*(2-1)/2 = 1 entry, by the main theorem at the concrete input. -/
theorem spec_c4_witness :
    (List.filter (fun e => e.instructorId == "chen")
      (computeConflicts [exChenX, exChenY]
        [⟨"chen", "Dr. Chen"⟩] [] [] 30).instructorConflicts).length
      = (instructorGroup [exChenX, exChenY] "chen").length
        * ((instructorGroup [exChenX, exChenY] "chen").length - 1) / 2 :=
  spec_c4 [exChenX, exChenY] [⟨"chen", "Dr. Chen"⟩] [] [] 30 "chen" (by decide)

/-! String lemmas supporting the pathway-message claims. -/

/-- Right-cancellation of string append. -/
theorem string_append_right_inj {a b : String} (s : String) (h : a ++ s = b ++ s) :
    a = b := by
  have hd := congrArg String.data h
  simp only [String.data_append] at hd
  have hlen : a.data.length = b.data.length := by
    have h2 := congrArg List.length hd
    simp only [List.length_append] at h2
    omega
  have h3 := (List.append_inj hd hlen).1
  have hmk := congrArg String.mk h3
  simpa [string_mk_data] using hmk

/-- Two appends whose right parts end in different characters are different. -/
theorem string_append_last_ne (a b : String) {x y : String} {cx cy : Char}
    (hx : x.data.getLast? = some cx) (hy : y.data.getLast? = some cy) (hne : cx ≠ cy) :
    a ++ x ≠ b ++ y := by
  intro h
  have hd := congrArg String.data h
  simp only [String.data_append] at hd
  have hxne : x.data ≠ [] := by
    intro hnil
    rw [hnil] at hx
    cases hx
  have hyne : y.data ≠ [] := by
    intro hnil
    rw [hnil] at hy
    cases hy
  have h1 : (a.data ++ x.data).getLast? = some cx := by
    rw [List.getLast?_append_of_ne_nil _ hxne]
    exact hx
  rw [hd, List.getLast?_append_of_ne_nil _ hyne, hy] at h1
  exact hne (Option.some.inj h1).symm

/-- Filter distributes over flatMap. -/
theorem filter_flatMap {α β : Type} (l : List α) (f : α → List β) (p : β → Bool) :
    (l.flatMap f).filter p = l.flatMap fun a => (f a).filter p := by
  induction l with
  | nil => rfl
  | cons x xs ih => simp [List.flatMap_cons, List.filter_append, ih]

/-- Filtering a keyed flatMap by one key's predicate reduces to that key's segment. -/
theorem filter_flatMap_by_id {κ α : Type} (kid : κ → String) (keyOf : α → String)
    (F : κ → List α) (pred : α → Bool) (target : κ)
    (hpredid : ∀ e, pred e = true → keyOf e = kid target)
    (hF : ∀ k, ∀ e ∈ F k, keyOf e = kid k) :
    ∀ (keys : List κ), (keys.map kid).Nodup → target ∈ keys →
      ((keys.flatMap F).filter pred).length = ((F target).filter pred).length := by
  intro keys
  induction keys with
  | nil => simp
  | cons q qs ih =>
    intro hnd htar
    have hnd2 : (kid q ∉ qs.map kid) ∧ (qs.map kid).Nodup := by
      rw [List.map_cons] at hnd
      exact List.nodup_cons.mp hnd
    rw [List.flatMap_cons, List.filter_append, List.length_append]
    rcases List.mem_cons.mp htar with h | h
    · have hrest : (qs.flatMap F).filter pred = [] := by
        apply List.filter_eq_nil_iff.mpr
        intro e he hpe
        rcases List.mem_flatMap.mp he with ⟨k, hk, hek⟩
        have h1 := hpredid e hpe
        have h2 := hF k e hek
        apply hnd2.1
        exact List.mem_map.mpr ⟨k, hk, by rw [← h2, h1, h]⟩
      rw [hrest, h]
      rfl
    · have hq : (F q).filter pred = [] := by
        apply List.filter_eq_nil_iff.mpr
        intro e he hpe
        have h1 := hpredid e hpe
        have h2 := hF q e he
        apply hnd2.1
        rw [h2.symm.trans h1]
        exact List.mem_map.mpr ⟨target, h, rfl⟩
      rw [hq]
      simp only [List.length_nil, Nat.zero_add]
      exact ih hnd2.2 h

/-- Every issue produced for one pathway carries that pathway's id. -/
theorem pathwayIssuesFor_id {sections : List Section} {q : Pathway} {i : PathwayIssue}
    (h : i ∈ unavailabilityIssues sections q ++ pairConflictIssues sections q) :
    i.pathwayId = q.id := by
  rcases List.mem_append.mp h with h | h
  · rcases List.mem_filterMap.mp h with ⟨c, hc, hsome⟩
    split at hsome
    · rw [← Option.some.inj hsome]
    · cases hsome
  · rcases List.mem_filterMap.mp h with ⟨pr, hpr, hsome⟩
    rcases pairIssue_eq_some_iff.mp hsome with ⟨h1, h2, h3, hieq⟩
    rw [hieq]

/-- The pathway-issue list of the report, unfolded. -/
theorem pathwayIssues_eq (sections : List Section) (instructors : List Instructor)
    (rooms : List Room) (pathways : List Pathway) (buf : Int) :
    (computeConflicts sections instructors rooms pathways buf).pathwayIssues
      = pathways.flatMap fun p =>
          unavailabilityIssues sections p ++ pairConflictIssues sections p := rfl

/-- Counting the unavailability issues of one course over a required-code list. -/
theorem unavail_filter_count (sections : List Section) (p : Pathway) (course : String)
    (hnone : (sectionsFor sections course).isEmpty = true) :
    ∀ (l : List String),
      ((l.filterMap fun courseCode =>
          if (sectionsFor sections courseCode).isEmpty then
            some (⟨p.id, p.name,
              courseCode ++ ": no sections offered in this scenario"⟩ : PathwayIssue)
          else none).filter fun i =>
            i.pathwayId == p.id &&
            i.details == course ++ ": no sections offered in this scenario").length
      = l.count course := by
  intro l
  induction l with
  | nil => rfl
  | cons c cs ih =>
    rw [List.filterMap_cons]
    by_cases hc : (sectionsFor sections c).isEmpty = true
    · rw [if_pos hc, List.filter_cons]
      by_cases hcc : c = course
      · subst hcc
        rw [if_pos (by simp)]
        simp only [List.length_cons, ih, List.count_cons]
        simp
      · rw [if_neg ?hpred]
        case hpred =>
          simp only [Bool.and_eq_true, beq_iff_eq]
          rintro ⟨h1, hdet⟩
          exact hcc (string_append_right_inj _ hdet)
        rw [ih]
        simp [List.count_cons, hcc]
    · rw [if_neg hc, ih]
      have hcc : ¬ c = course := by
        intro h
        rw [h] at hc
        exact hc hnone
      simp [List.count_cons, hcc]

/-- The pairwise pass never produces an unavailability-shaped message. -/
theorem pair_issues_filter_nil (sections : List Section) (p : Pathway) (course : String) :
    (pairConflictIssues sections p).filter (fun i =>
      i.pathwayId == p.id &&
      i.details == course ++ ": no sections offered in this scenario") = [] := by
  apply List.filter_eq_nil_iff.mpr
  intro i hi
  rcases List.mem_filterMap.mp hi with ⟨pr, hpr, hsome⟩
  rcases pairIssue_eq_some_iff.mp hsome with ⟨h1, h2, h3, hieq⟩
  subst hieq
  simp only [Bool.and_eq_true, beq_iff_eq]
  rintro ⟨h4, hdet⟩
  have hx : (" for all available sections" : String).data.getLast? = some 's' := by decide
  have hy : (": no sections offered in this scenario" : String).data.getLast?
      = some 'o' := by decide
  exact string_append_last_ne _ _ hx hy (by decide) hdet

/-- C6 counterexample: the code's unavailability message is
"course: no sections offered in this scenario", not the spec's exact
"course: no sections offered". -/
theorem spec_c6_cex :
    exMissingRep.pathwayIssues.map (fun i => i.details)
        = ["CHEM 101: no sections offered in this scenario"] ∧
    ¬ (∃ i ∈ exMissingRep.pathwayIssues,
        i.details = "CHEM 101: no sections offered") := by
  decide

/-- C6 (amended): for a pathway (with set-like required codes and pathway ids unique)
requiring a course that no section offers, exactly one issue naming that pathway
carries the message course ++ ": no sections offered in this scenario". -/
theorem spec_c6 (sections : List Section) (instructors : List Instructor)
    (rooms : List Room) (pathways : List Pathway) (buf : Int) (p : Pathway)
    (course : String)
    (hp : p ∈ pathways)
    (hids : (pathways.map fun q => q.id).Nodup)
    (hreq : course ∈ p.requiredCourseCodes)
    (hnd : p.requiredCourseCodes.Nodup)
    (hnone : ∀ s ∈ sections, ¬ s.courseCode = course) :
    ((computeConflicts sections instructors rooms pathways buf).pathwayIssues.filter
      fun i => i.pathwayId == p.id &&
        i.details == course ++ ": no sections offered in this scenario").length = 1 := by
  have hempty : (sectionsFor sections course).isEmpty = true := by
    rw [List.isEmpty_iff]
    apply List.filter_eq_nil_iff.mpr
    intro s hs hbeq
    exact hnone s hs (by simpa using hbeq)
  rw [pathwayIssues_eq]
  have hpredid : ∀ i : PathwayIssue,
      (i.pathwayId == p.id &&
        i.details == course ++ ": no sections offered in this scenario") = true →
      i.pathwayId = p.id := by
    intro i hi
    rw [Bool.and_eq_true] at hi
    exact beq_iff_eq.mp hi.1
  have hF : ∀ q : Pathway, ∀ i ∈ unavailabilityIssues sections q
      ++ pairConflictIssues sections q, i.pathwayId = q.id :=
    fun q i hi => pathwayIssuesFor_id hi
  rw [filter_flatMap_by_id (fun q => q.id) (fun i => i.pathwayId)
      (fun q => unavailabilityIssues sections q ++ pairConflictIssues sections q)
      (fun i => i.pathwayId == p.id &&
        i.details == course ++ ": no sections offered in this scenario")
      p hpredid hF pathways hids hp]
  rw [List.filter_append, List.length_append, pair_issues_filter_nil]
  show (List.filter _ (unavailabilityIssues sections p)).length + 0 = 1
  rw [Nat.add_zero]
  unfold unavailabilityIssues
  rw [unavail_filter_count sections p course hempty p.requiredCourseCodes]
  exact List.count_eq_one_of_mem hnd hreq

/-- C6 witness: the missing-course pathway input, via the amended theorem. -/
theorem spec_c6_witness :
    ((computeConflicts [] [] [] [exMissingPathway] 0).pathwayIssues.filter
      fun i => i.pathwayId == exMissingPathway.id &&
        i.details == "CHEM 101" ++ ": no sections offered in this scenario").length = 1 :=
  spec_c6 [] [] [] [exMissingPathway] 0 exMissingPathway "CHEM 101"
    (by decide) (by decide) (by decide) (by decide) (by decide)

/-- C1: for a pathway requiring two distinct course codes that are both offered, an
all-available-sections conflict issue is produced for the pair (in one of the two
orders) and lands in the report if and only if every section carrying the one code
conflicts (some same-day, half-open-overlapping pair of occurrences) with every
section carrying the other. -/
theorem spec_c1 (sections : List Section) (instructors : List Instructor)
    (rooms : List Room) (pathways : List Pathway) (buf : Int) (p : Pathway)
    (courseA courseB : String)
    (hp : p ∈ pathways)
    (hA : courseA ∈ p.requiredCourseCodes) (hB : courseB ∈ p.requiredCourseCodes)
    (hAB : courseA ≠ courseB)
    (hoffA : ∃ s ∈ sections, s.courseCode = courseA)
    (hoffB : ∃ s ∈ sections, s.courseCode = courseB) :
    (∃ issue, (pairIssue sections p courseA courseB = some issue ∨
               pairIssue sections p courseB courseA = some issue) ∧
      issue ∈ (computeConflicts sections instructors rooms pathways buf).pathwayIssues)
    ↔ (∀ sA ∈ sections, sA.courseCode = courseA → ∀ sB ∈ sections,
        sB.courseCode = courseB →
        ∃ blockA ∈ sA.meetingBlocks, ∃ blockB ∈ sB.meetingBlocks,
          blockA.day = blockB.day ∧
          minutesFromTime blockA.startTime < minutesFromTime blockB.endTime ∧
          minutesFromTime blockB.startTime < minutesFromTime blockA.endTime) := by
  constructor
  · rintro ⟨issue, hsome | hsome, hmem⟩
    · rcases pairIssue_eq_some_iff.mp hsome with ⟨he1, he2, hall, hieq⟩
      intro sA hsA hcA sB hsB hcB
      have hmA : sA ∈ sectionsFor sections courseA :=
        List.mem_filter.mpr ⟨hsA, by simpa using hcA⟩
      have hmB : sB ∈ sectionsFor sections courseB :=
        List.mem_filter.mpr ⟨hsB, by simpa using hcB⟩
      exact sectionsOverlap_iff.mp (hall sA hmA sB hmB)
    · rcases pairIssue_eq_some_iff.mp hsome with ⟨he1, he2, hall, hieq⟩
      intro sA hsA hcA sB hsB hcB
      have hmA : sA ∈ sectionsFor sections courseA :=
        List.mem_filter.mpr ⟨hsA, by simpa using hcA⟩
      have hmB : sB ∈ sectionsFor sections courseB :=
        List.mem_filter.mpr ⟨hsB, by simpa using hcB⟩
      have h2 := hall sB hmB sA hmA
      rw [sectionsOverlap_comm] at h2
      exact sectionsOverlap_iff.mp h2
  · intro hall
    have hallBool : ∀ sA ∈ sectionsFor sections courseA,
        ∀ sB ∈ sectionsFor sections courseB, sectionsOverlap sA sB = true := by
      intro sA hsA sB hsB
      rcases List.mem_filter.mp hsA with ⟨hsA1, hsA2⟩
      rcases List.mem_filter.mp hsB with ⟨hsB1, hsB2⟩
      exact sectionsOverlap_iff.mpr
        (hall sA hsA1 (by simpa using hsA2) sB hsB1 (by simpa using hsB2))
    have hne1 : (sectionsFor sections courseA).isEmpty = false := by
      rcases hoffA with ⟨s, hs, hc⟩
      have hmem : s ∈ sectionsFor sections courseA :=
        List.mem_filter.mpr ⟨hs, by simpa using hc⟩
      cases hemp : (sectionsFor sections courseA).isEmpty
      · rfl
      · rw [List.isEmpty_iff.mp hemp] at hmem
        cases hmem
    have hne2 : (sectionsFor sections courseB).isEmpty = false := by
      rcases hoffB with ⟨s, hs, hc⟩
      have hmem : s ∈ sectionsFor sections courseB :=
        List.mem_filter.mpr ⟨hs, by simpa using hc⟩
      cases hemp : (sectionsFor sections courseB).isEmpty
      · rfl
      · rw [List.isEmpty_iff.mp hemp] at hmem
        cases hmem
    rcases listPairs_mem_or hA hB hAB with hpr | hpr
    · have hsome : pairIssue sections p courseA courseB = some
          ⟨p.id, p.name,
           courseA ++ " conflicts with " ++ courseB ++ " for all available sections"⟩ :=
        pairIssue_eq_some_iff.mpr ⟨hne1, hne2, hallBool, rfl⟩
      refine ⟨_, Or.inl hsome, ?_⟩
      rw [pathwayIssues_eq sections instructors rooms pathways buf]
      exact List.mem_flatMap.mpr ⟨p, hp, List.mem_append.mpr (Or.inr
        (List.mem_filterMap.mpr ⟨(courseA, courseB), hpr, hsome⟩))⟩
    · have hallBool2 : ∀ sB ∈ sectionsFor sections courseB,
          ∀ sA ∈ sectionsFor sections courseA, sectionsOverlap sB sA = true := by
        intro sB hsB sA hsA
        rw [sectionsOverlap_comm]
        exact hallBool sA hsA sB hsB
      have hsome : pairIssue sections p courseB courseA = some
          ⟨p.id, p.name,
           courseB ++ " conflicts with " ++ courseA ++ " for all available sections"⟩ :=
        pairIssue_eq_some_iff.mpr ⟨hne2, hne1, hallBool2, rfl⟩
      refine ⟨_, Or.inr hsome, ?_⟩
      rw [pathwayIssues_eq sections instructors rooms pathways buf]
      exact List.mem_flatMap.mpr ⟨p, hp, List.mem_append.mpr (Or.inr
        (List.mem_filterMap.mpr ⟨(courseB, courseA), hpr, hsome⟩))⟩

/-- C1 witness: the two-course pathway whose only offerings overlap on Mon, via the
main theorem applied at the concrete input (its all-combination side checked by
evaluation). -/
theorem spec_c1_witness :
    ∃ issue, (pairIssue [exPathA, exPathB] exPathway "PHYS 210" "PHYS 210L"
        = some issue ∨
      pairIssue [exPathA, exPathB] exPathway "PHYS 210L" "PHYS 210" = some issue) ∧
      issue ∈ (computeConflicts [exPathA, exPathB] [] [] [exPathway] 0).pathwayIssues :=
  (spec_c1 [exPathA, exPathB] [] [] [exPathway] 0 exPathway "PHYS 210" "PHYS 210L"
    (by decide) (by decide) (by decide) (by decide) (by decide) (by decide)).mpr
    (by decide)

/-- Parse facts for a slot of a room group whose room ids are clean (no "__", no
trailing underscore): the key's parsed components recover the block's own room id
and day string. -/
theorem roomGroup_slot_parse {sections : List Section} {k : String} {sl : Slot}
    (hclean : ∀ s ∈ sections, ∀ b ∈ s.meetingBlocks, ∀ rid, b.roomId = some rid →
      containsUU rid = false ∧ endsUnd rid = false)
    (hsl : sl ∈ roomGroup sections k) :
    sl.block.roomId = some ((splitUU k).getD 0 "") ∧
    (splitUU k).getD 1 "" = sl.block.day.str := by
  have hkey := roomGroup_key hsl
  rcases roomKeyOf_eq_some.mp hkey with ⟨rid, hrid, hr0, hkeq⟩
  rcases mem_allSlots.mp (roomGroup_sub hsl) with ⟨s, hs, hsec, hb⟩
  have hcl := hclean s hs sl.block (hsec ▸ hb) rid hrid
  have hsplit : splitUU k = [rid, sl.block.day.str] := by
    rw [hkeq]
    exact splitUU_key rid sl.block.day hcl.1 hcl.2
  rw [hsplit]
  exact ⟨hrid, rfl⟩

/-- C8 counterexample: with the room id "A_" (which does not contain "__"), the
grouping key "A___Mon" parses back as room "A" and day "_Mon", so the emitted room
conflict reports a day that is not the occurrences' day and a room id the
occurrences do not reference. -/
theorem spec_c8_cex :
    containsUU "A_" = false ∧
    (∃ e ∈ exUndRep.roomConflicts,
      ¬ e.blockA.roomId = some e.roomId ∧ ¬ e.day = e.blockA.day.str) := by
  decide

/-- C8 (amended): for inputs in which no referenced room id contains "__" and no
referenced room id has an underscore as its final character, every room-conflict and
buffer-violation entry reports exactly its occurrences' room id and day. -/
theorem spec_c8 (sections : List Section) (instructors : List Instructor)
    (rooms : List Room) (pathways : List Pathway) (buf : Int)
    (hclean : ∀ s ∈ sections, ∀ b ∈ s.meetingBlocks, ∀ rid, b.roomId = some rid →
      containsUU rid = false ∧ endsUnd rid = false) :
    (∀ e ∈ (computeConflicts sections instructors rooms pathways buf).roomConflicts,
      e.blockA.roomId = some e.roomId ∧ e.blockB.roomId = some e.roomId ∧
      e.day = e.blockA.day.str ∧ e.day = e.blockB.day.str) ∧
    (∀ e ∈ (computeConflicts sections instructors rooms pathways buf).labBufferConflicts,
      e.firstBlock.roomId = some e.roomId ∧ e.secondBlock.roomId = some e.roomId ∧
      e.day = e.firstBlock.day.str ∧ e.day = e.secondBlock.day.str) := by
  constructor
  · intro e he
    rcases mem_report_roomConflicts.mp he with ⟨k, hk, he2⟩
    rw [processRoomGroup_fst] at he2
    rcases mem_roomConflictsFor.mp he2 with ⟨pr, hpr, hcond, hee⟩
    have hmem := mem_listPairs hpr
    have hm1 : pr.1 ∈ roomGroup sections k :=
      (sortSlots_perm _).mem_iff.mp hmem.1
    have hm2 : pr.2 ∈ roomGroup sections k :=
      (sortSlots_perm _).mem_iff.mp hmem.2
    rcases roomGroup_slot_parse hclean hm1 with ⟨hr1, hd1⟩
    rcases roomGroup_slot_parse hclean hm2 with ⟨hr2, hd2⟩
    subst hee
    exact ⟨hr1, hr2, hd1, hd2⟩
  · intro e he
    rcases mem_report_bufferConflicts.mp he with ⟨k, hk, he2⟩
    rcases hrm : roomMapGet rooms ((splitUU k).getD 0 "") with _ | room
    · have he3 : e ∈ ([] : List LabBufferConflict) := by
        rw [processRoomGroup_snd, hrm] at he2
        exact he2
      cases he3
    · have he3 : e ∈ (if room.roomType = RoomType.lab then
          bufferWalk ((splitUU k).getD 0 "") room.name ((splitUU k).getD 1 "") buf
            (sortSlots (roomGroup sections k))
        else []) := by
        rw [processRoomGroup_snd, hrm] at he2
        exact he2
      by_cases hlab : room.roomType = RoomType.lab
      · rw [if_pos hlab] at he3
        rcases mem_bufferWalk.mp he3 with ⟨ab, hab, hgap, hee⟩
        have hmem : ab.1 ∈ sortSlots (roomGroup sections k) ∧
            ab.2 ∈ sortSlots (roomGroup sections k) :=
          mem_listPairs (zip_tail_sub_listPairs hab)
        have hm1 : ab.1 ∈ roomGroup sections k :=
          (sortSlots_perm _).mem_iff.mp hmem.1
        have hm2 : ab.2 ∈ roomGroup sections k :=
          (sortSlots_perm _).mem_iff.mp hmem.2
        rcases roomGroup_slot_parse hclean hm1 with ⟨hr1, hd1⟩
        rcases roomGroup_slot_parse hclean hm2 with ⟨hr2, hd2⟩
        subst hee
        exact ⟨hr1, hr2, hd1, hd2⟩
      · rw [if_neg hlab] at he3
        cases he3

/-- C8 witness: with the clean room id "RM", the single room conflict of the
well-behaved input reports exactly its occurrences' room id and day, by the amended
theorem. -/
theorem spec_c8_witness :
    (blk Day.Mon 10 0 11 0 (some "RM")).roomId = some "RM" ∧
    (blk Day.Mon 10 30 11 30 (some "RM")).roomId = some "RM" ∧
    "Mon" = (blk Day.Mon 10 0 11 0 (some "RM")).day.str ∧
    "Mon" = (blk Day.Mon 10 30 11 30 (some "RM")).day.str :=
  (spec_c8 [exOkA, exOkB] [] [] [] 0 (by decide)).1
    ⟨"RM", "RM", "Mon", exOkA, exOkB, blk Day.Mon 10 0 11 0 (some "RM"),
     blk Day.Mon 10 30 11 30 (some "RM")⟩ (by decide)

/-- C2 counterexample: in lab room R, the occurrence Mon 10:30-10:00 (end before
start) follows Mon 10:00-11:00 in sorted order with gap -30 < 30, so a
buffer-violation entry with a negative gap is emitted, yet NO direct room conflict
is emitted at all for that input — refuting that a negative gap always comes with a
direct room conflict for the same pair. -/
theorem spec_c2_cex :
    (∃ e ∈ exNegRep.labBufferConflicts, e.gapMinutes < 0) ∧
    exNegRep.roomConflicts = [] := by
  decide

/-- C2 (amended): buffer-violation entries exist exactly for consecutive pairs of a
lab-resolving room group, sorted ascending by start, whose gap (next start minus
current end) is strictly below the configured buffer, carrying that computed gap
(possibly negative); rooms that do not resolve to a lab never produce buffer
entries; and when the group's occurrences all have positive duration, a negative
gap implies the same consecutive pair is also reported as a direct room conflict. -/
theorem spec_c2 (sections : List Section) (instructors : List Instructor)
    (rooms : List Room) (pathways : List Pathway) (buf : Int) :
    (∀ e ∈ (computeConflicts sections instructors rooms pathways buf).labBufferConflicts,
      ∃ r, roomMapGet rooms e.roomId = some r ∧ r.roomType = RoomType.lab) ∧
    (∀ e, e ∈ (computeConflicts sections instructors rooms pathways buf).labBufferConflicts
      ↔ ∃ k ∈ roomKeys sections, ∃ r,
        roomMapGet rooms ((splitUU k).getD 0 "") = some r ∧ r.roomType = RoomType.lab ∧
        ∃ ab ∈ (sortSlots (roomGroup sections k)).zip
            (sortSlots (roomGroup sections k)).tail,
          minutesFromTime ab.2.block.startTime - minutesFromTime ab.1.block.endTime
            < buf ∧
          e = ⟨(splitUU k).getD 0 "", r.name, (splitUU k).getD 1 "", ab.1.sec, ab.2.sec,
               ab.1.block, ab.2.block,
               minutesFromTime ab.2.block.startTime
                 - minutesFromTime ab.1.block.endTime⟩) ∧
    (∀ k ∈ roomKeys sections,
      ∀ ab ∈ (sortSlots (roomGroup sections k)).zip
          (sortSlots (roomGroup sections k)).tail,
      (∀ sl ∈ roomGroup sections k,
        minutesFromTime sl.block.startTime < minutesFromTime sl.block.endTime) →
      minutesFromTime ab.2.block.startTime - minutesFromTime ab.1.block.endTime < 0 →
      ∃ e ∈ (computeConflicts sections instructors rooms pathways buf).roomConflicts,
        e.blockA = ab.1.block ∧ e.blockB = ab.2.block ∧
        e.sectionA = ab.1.sec ∧ e.sectionB = ab.2.sec) := by
  refine ⟨?_, ?_, ?_⟩
  · intro e he
    rcases mem_report_bufferConflicts.mp he with ⟨k, hk, he2⟩
    rcases hrm : roomMapGet rooms ((splitUU k).getD 0 "") with _ | room
    · have he3 : e ∈ ([] : List LabBufferConflict) := by
        rw [processRoomGroup_snd, hrm] at he2
        exact he2
      cases he3
    · have he3 : e ∈ (if room.roomType = RoomType.lab then
          bufferWalk ((splitUU k).getD 0 "") room.name ((splitUU k).getD 1 "") buf
            (sortSlots (roomGroup sections k))
        else []) := by
        rw [processRoomGroup_snd, hrm] at he2
        exact he2
      by_cases hlab : room.roomType = RoomType.lab
      · rw [if_pos hlab] at he3
        rcases mem_bufferWalk.mp he3 with ⟨ab, hab, hgap, hee⟩
        refine ⟨room, ?_, hlab⟩
        rw [hee]
        exact hrm
      · rw [if_neg hlab] at he3
        cases he3
  · intro e
    constructor
    · intro he
      rcases mem_report_bufferConflicts.mp he with ⟨k, hk, he2⟩
      rcases hrm : roomMapGet rooms ((splitUU k).getD 0 "") with _ | room
      · have he3 : e ∈ ([] : List LabBufferConflict) := by
          rw [processRoomGroup_snd, hrm] at he2
          exact he2
        cases he3
      · have he3 : e ∈ (if room.roomType = RoomType.lab then
            bufferWalk ((splitUU k).getD 0 "") room.name ((splitUU k).getD 1 "") buf
              (sortSlots (roomGroup sections k))
          else []) := by
          rw [processRoomGroup_snd, hrm] at he2
          exact he2
        by_cases hlab : room.roomType = RoomType.lab
        · rw [if_pos hlab] at he3
          rcases mem_bufferWalk.mp he3 with ⟨ab, hab, hgap, hee⟩
          exact ⟨k, hk, room, hrm, hlab, ab, hab, hgap, hee⟩
        · rw [if_neg hlab] at he3
          cases he3
    · rintro ⟨k, hk, room, hrm, hlab, ab, hab, hgap, hee⟩
      apply mem_report_bufferConflicts.mpr
      refine ⟨k, hk, ?_⟩
      have hgoal : e ∈ bufferWalk ((splitUU k).getD 0 "") room.name
          ((splitUU k).getD 1 "") buf (sortSlots (roomGroup sections k)) :=
        mem_bufferWalk.mpr ⟨ab, hab, hgap, hee⟩
      have heq : (processRoomGroup rooms buf k (roomGroup sections k)).2
          = bufferWalk ((splitUU k).getD 0 "") room.name ((splitUU k).getD 1 "") buf
              (sortSlots (roomGroup sections k)) := by
        rw [processRoomGroup_snd, hrm]
        exact if_pos hlab
      rw [heq]
      exact hgoal
  · intro k hk ab hab hpos hneg
    have hpr := zip_tail_sub_listPairs hab
    have hle : slotLE ab.1 ab.2 :=
      pairwise_listPairs (sortSlots_sorted (roomGroup sections k)) ab hpr
    have hmem := mem_listPairs hpr
    have hm2 : ab.2 ∈ roomGroup sections k :=
      (sortSlots_perm _).mem_iff.mp hmem.2
    have hpos2 := hpos ab.2 hm2
    have hcond : minutesFromTime ab.1.block.startTime
          < minutesFromTime ab.2.block.endTime ∧
        minutesFromTime ab.2.block.startTime < minutesFromTime ab.1.block.endTime := by
      unfold slotLE at hle
      omega
    refine ⟨⟨(splitUU k).getD 0 "",
        nameOr ((roomMapGet rooms ((splitUU k).getD 0 "")).map Room.name)
          ((splitUU k).getD 0 ""), (splitUU k).getD 1 "",
        ab.1.sec, ab.2.sec, ab.1.block, ab.2.block⟩, ?_, rfl, rfl, rfl, rfl⟩
    apply mem_report_roomConflicts.mpr
    refine ⟨k, hk, ?_⟩
    rw [processRoomGroup_fst]
    exact mem_roomConflictsFor.mpr ⟨ab, hpr, hcond, rfl⟩

/-- C2 witness: two overlapping proper bookings of lab room L (gap -30 below buffer
30) are reported as a direct room conflict for that same consecutive pair, by the
amended theorem's third part at the concrete input. -/
theorem spec_c2_witness :
    ∃ e ∈ (computeConflicts [exOvA, exOvB] [] [exOvRoom] [] 30).roomConflicts,
      e.blockA = blk Day.Mon 10 0 11 0 (some "L") ∧
      e.blockB = blk Day.Mon 10 30 11 30 (some "L") ∧
      e.sectionA = exOvA ∧ e.sectionB = exOvB :=
  (spec_c2 [exOvA, exOvB] [] [exOvRoom] [] 30).2.2 "L__Mon" (by decide)
    (⟨exOvA, blk Day.Mon 10 0 11 0 (some "L")⟩,
     ⟨exOvB, blk Day.Mon 10 30 11 30 (some "L")⟩)
    (by decide) (by decide) (by decide)

/-! Kind-erasure commutation lemmas for the hyperproperty claim. -/

theorem allSlots_erase (sections : List Section) :
    allSlots (sections.map eraseKind) = (allSlots sections).map eraseSlot := by
  induction sections with
  | nil => rfl
  | cons s ss ih =>
    show ((eraseKind s).meetingBlocks.map fun b => Slot.mk (eraseKind s) b)
        ++ allSlots (ss.map eraseKind)
      = ((s.meetingBlocks.map fun b => Slot.mk s b) ++ allSlots ss).map eraseSlot
    rw [List.map_append, ih, List.map_map]
    rfl

theorem instructorIds_erase (sections : List Section) :
    instructorIds (sections.map eraseKind) = instructorIds sections := by
  unfold instructorIds
  rw [allSlots_erase, List.map_map]
  rfl

theorem instructorGroup_erase (sections : List Section) (iid : String) :
    instructorGroup (sections.map eraseKind) iid
      = (instructorGroup sections iid).map eraseSlot := by
  unfold instructorGroup
  rw [allSlots_erase, List.filter_map]
  rfl

theorem listPairs_map {α β : Type} (f : α → β) :
    ∀ (l : List α), listPairs (l.map f) = (listPairs l).map (Prod.map f f) := by
  intro l
  induction l with
  | nil => rfl
  | cons x xs ih =>
    show ((xs.map f).map fun y => (f x, y)) ++ listPairs (xs.map f)
      = ((xs.map fun y => (x, y)) ++ listPairs xs).map (Prod.map f f)
    rw [List.map_append, ih, List.map_map, List.map_map]
    rfl

theorem instructorConflictsFor_erase (instructors : List Instructor) (iid : String)
    (g : List Slot) :
    instructorConflictsFor instructors iid (g.map eraseSlot)
      = (instructorConflictsFor instructors iid g).map eraseIC := by
  unfold instructorConflictsFor
  rw [listPairs_map, List.filterMap_map, List.map_filterMap]
  congr 1
  funext p
  by_cases hc : p.1.block.day = p.2.block.day ∧
      minutesFromTime p.1.block.startTime < minutesFromTime p.2.block.endTime ∧
      minutesFromTime p.2.block.startTime < minutesFromTime p.1.block.endTime
  · rw [if_pos hc]
    show (if p.1.block.day = p.2.block.day ∧
        minutesFromTime p.1.block.startTime < minutesFromTime p.2.block.endTime ∧
        minutesFromTime p.2.block.startTime < minutesFromTime p.1.block.endTime
      then _ else _) = _
    rw [if_pos hc]
    rfl
  · rw [if_neg hc]
    show (if p.1.block.day = p.2.block.day ∧
        minutesFromTime p.1.block.startTime < minutesFromTime p.2.block.endTime ∧
        minutesFromTime p.2.block.startTime < minutesFromTime p.1.block.endTime
      then _ else _) = _
    rw [if_neg hc]
    rfl

theorem roomKeys_erase (sections : List Section) :
    roomKeys (sections.map eraseKind) = roomKeys sections := by
  unfold roomKeys
  rw [allSlots_erase, List.filterMap_map]
  rfl

theorem roomGroup_erase (sections : List Section) (k : String) :
    roomGroup (sections.map eraseKind) k = (roomGroup sections k).map eraseSlot := by
  unfold roomGroup
  rw [allSlots_erase, List.filter_map]
  rfl

theorem orderedInsert_erase (a : Slot) :
    ∀ (l : List Slot),
      List.orderedInsert slotLE (eraseSlot a) (l.map eraseSlot)
        = (List.orderedInsert slotLE a l).map eraseSlot := by
  intro l
  induction l with
  | nil => rfl
  | cons b t ih =>
    show List.orderedInsert slotLE (eraseSlot a) (eraseSlot b :: t.map eraseSlot) = _
    rw [List.orderedInsert, List.orderedInsert]
    by_cases h : slotLE a b
    · rw [if_pos h, if_pos (show slotLE (eraseSlot a) (eraseSlot b) from h)]
      rfl
    · rw [if_neg h, if_neg (show ¬ slotLE (eraseSlot a) (eraseSlot b) from h)]
      rw [List.map_cons, ih]

theorem sortSlots_erase : ∀ (g : List Slot),
    sortSlots (g.map eraseSlot) = (sortSlots g).map eraseSlot := by
  intro g
  induction g with
  | nil => rfl
  | cons x xs ih =>
    show List.insertionSort slotLE (eraseSlot x :: xs.map eraseSlot) = _
    rw [List.insertionSort]
    have ih2 : List.insertionSort slotLE (xs.map eraseSlot)
        = (List.insertionSort slotLE xs).map eraseSlot := ih
    rw [ih2]
    exact orderedInsert_erase x (List.insertionSort slotLE xs)

theorem roomConflictsFor_erase (rooms : List Room) (roomId dayStr : String)
    (sorted : List Slot) :
    roomConflictsFor rooms roomId dayStr (sorted.map eraseSlot)
      = (roomConflictsFor rooms roomId dayStr sorted).map eraseRC := by
  unfold roomConflictsFor
  rw [listPairs_map, List.filterMap_map, List.map_filterMap]
  congr 1
  funext p
  by_cases hc : minutesFromTime p.1.block.startTime < minutesFromTime p.2.block.endTime ∧
      minutesFromTime p.2.block.startTime < minutesFromTime p.1.block.endTime
  · rw [if_pos hc]
    show (if minutesFromTime p.1.block.startTime < minutesFromTime p.2.block.endTime ∧
        minutesFromTime p.2.block.startTime < minutesFromTime p.1.block.endTime
      then _ else _) = _
    rw [if_pos hc]
    rfl
  · rw [if_neg hc]
    show (if minutesFromTime p.1.block.startTime < minutesFromTime p.2.block.endTime ∧
        minutesFromTime p.2.block.startTime < minutesFromTime p.1.block.endTime
      then _ else _) = _
    rw [if_neg hc]
    rfl

theorem bufferWalk_erase (roomId roomName dayStr : String) (buf : Int) :
    ∀ (l : List Slot),
      bufferWalk roomId roomName dayStr buf (l.map eraseSlot)
        = (bufferWalk roomId roomName dayStr buf l).map eraseBC := by
  intro l
  induction l with
  | nil => rfl
  | cons a t ih =>
    cases t with
    | nil => rfl
    | cons b rest =>
      show bufferWalk roomId roomName dayStr buf
          (eraseSlot a :: eraseSlot b :: (rest.map eraseSlot)) = _
      rw [bufferWalk, bufferWalk]
      have ih2 : bufferWalk roomId roomName dayStr buf
          (eraseSlot b :: rest.map eraseSlot)
          = (bufferWalk roomId roomName dayStr buf (b :: rest)).map eraseBC := ih
      by_cases hg : minutesFromTime b.block.startTime - minutesFromTime a.block.endTime
          < buf
      · rw [if_pos hg, if_pos (show minutesFromTime (eraseSlot b).block.startTime
            - minutesFromTime (eraseSlot a).block.endTime < buf from hg)]
        rw [List.map_append, ih2]
        rfl
      · rw [if_neg hg, if_neg (show ¬ (minutesFromTime (eraseSlot b).block.startTime
            - minutesFromTime (eraseSlot a).block.endTime < buf) from hg)]
        rw [List.map_append, ih2]
        rfl

theorem processRoomGroup_erase (rooms : List Room) (buf : Int) (k : String)
    (slots : List Slot) :
    processRoomGroup rooms buf k (slots.map eraseSlot)
      = ((processRoomGroup rooms buf k slots).1.map eraseRC,
         (processRoomGroup rooms buf k slots).2.map eraseBC) := by
  have h1 : (processRoomGroup rooms buf k (slots.map eraseSlot)).1
      = (processRoomGroup rooms buf k slots).1.map eraseRC := by
    rw [processRoomGroup_fst, processRoomGroup_fst, sortSlots_erase,
        roomConflictsFor_erase]
  have h2 : (processRoomGroup rooms buf k (slots.map eraseSlot)).2
      = (processRoomGroup rooms buf k slots).2.map eraseBC := by
    rw [processRoomGroup_snd, processRoomGroup_snd, sortSlots_erase]
    rcases roomMapGet rooms ((splitUU k).getD 0 "") with _ | room
    · rfl
    · by_cases hlab : room.roomType = RoomType.lab
      · show (if _ then _ else _) = List.map eraseBC (if _ then _ else _)
        rw [if_pos hlab, if_pos hlab, bufferWalk_erase]
      · show (if _ then _ else _) = List.map eraseBC (if _ then _ else _)
        rw [if_neg hlab, if_neg hlab]
        rfl
  exact Prod.ext h1 h2

theorem sectionsFor_erase (sections : List Section) (courseCode : String) :
    sectionsFor (sections.map eraseKind) courseCode
      = (sectionsFor sections courseCode).map eraseKind := by
  unfold sectionsFor
  rw [List.filter_map]
  rfl

theorem isEmpty_map_eq {α β : Type} (f : α → β) (l : List α) :
    (l.map f).isEmpty = l.isEmpty := by
  cases l <;> rfl

theorem pairIssue_erase (sections : List Section) (p : Pathway)
    (courseA courseB : String) :
    pairIssue (sections.map eraseKind) p courseA courseB
      = pairIssue sections p courseA courseB := by
  unfold pairIssue
  rw [sectionsFor_erase, sectionsFor_erase, isEmpty_map_eq, isEmpty_map_eq]
  by_cases hemp : ((sectionsFor sections courseA).isEmpty
      || (sectionsFor sections courseB).isEmpty) = true
  · rw [if_pos hemp, if_pos hemp]
  · rw [if_neg hemp, if_neg hemp]
    have hfun : ((fun sA => ((sectionsFor sections courseB).map eraseKind).all
          fun sB => sectionsOverlap sA sB) ∘ eraseKind)
        = fun sA => (sectionsFor sections courseB).all
            fun sB => sectionsOverlap sA sB := by
      funext x
      show ((sectionsFor sections courseB).map eraseKind).all
          (fun sB => sectionsOverlap (eraseKind x) sB) = _
      rw [List.all_map]
      rfl
    rw [List.all_map, hfun]

theorem unavailabilityIssues_erase (sections : List Section) (p : Pathway) :
    unavailabilityIssues (sections.map eraseKind) p
      = unavailabilityIssues sections p := by
  unfold unavailabilityIssues
  congr 1
  funext c
  rw [sectionsFor_erase, isEmpty_map_eq]

theorem pairConflictIssues_erase (sections : List Section) (p : Pathway) :
    pairConflictIssues (sections.map eraseKind) p = pairConflictIssues sections p := by
  unfold pairConflictIssues
  congr 1
  funext pr
  exact pairIssue_erase sections p pr.1 pr.2

theorem summary_ext {x y : ConflictSummary}
    (h1 : x.instructorConflicts = y.instructorConflicts)
    (h2 : x.roomConflicts = y.roomConflicts)
    (h3 : x.labBufferConflicts = y.labBufferConflicts)
    (h4 : x.pathwayIssues = y.pathwayIssues) : x = y := by
  cases x
  cases y
  cases h1
  cases h2
  cases h3
  cases h4
  rfl

theorem computeConflicts_erase (sections : List Section) (instructors : List Instructor)
    (rooms : List Room) (pathways : List Pathway) (buf : Int) :
    computeConflicts (sections.map eraseKind) instructors rooms pathways buf
      = eraseSummary (computeConflicts sections instructors rooms pathways buf) := by
  have hic : (instructorIds (sections.map eraseKind)).flatMap (fun iid =>
        instructorConflictsFor instructors iid
          (instructorGroup (sections.map eraseKind) iid))
      = ((instructorIds sections).flatMap fun iid =>
          instructorConflictsFor instructors iid (instructorGroup sections iid)).map
            eraseIC := by
    rw [instructorIds_erase, List.map_flatMap]
    congr 1
    funext iid
    rw [instructorGroup_erase, instructorConflictsFor_erase]
  have hrc : ((roomKeys (sections.map eraseKind)).map fun k =>
        processRoomGroup rooms buf k (roomGroup (sections.map eraseKind) k)).flatMap
          Prod.fst
      = (((roomKeys sections).map fun k =>
          processRoomGroup rooms buf k (roomGroup sections k)).flatMap Prod.fst).map
            eraseRC := by
    rw [roomKeys_erase, List.flatMap_map, List.flatMap_map, List.map_flatMap]
    congr 1
    funext k
    rw [roomGroup_erase, processRoomGroup_erase]
  have hbc : ((roomKeys (sections.map eraseKind)).map fun k =>
        processRoomGroup rooms buf k (roomGroup (sections.map eraseKind) k)).flatMap
          Prod.snd
      = (((roomKeys sections).map fun k =>
          processRoomGroup rooms buf k (roomGroup sections k)).flatMap Prod.snd).map
            eraseBC := by
    rw [roomKeys_erase, List.flatMap_map, List.flatMap_map, List.map_flatMap]
    congr 1
    funext k
    rw [roomGroup_erase, processRoomGroup_erase]
  have hpi : (pathways.flatMap fun p =>
        unavailabilityIssues (sections.map eraseKind) p
          ++ pairConflictIssues (sections.map eraseKind) p)
      = pathways.flatMap fun p =>
          unavailabilityIssues sections p ++ pairConflictIssues sections p := by
    congr 1
    funext p
    rw [unavailabilityIssues_erase, pairConflictIssues_erase]
  exact summary_ext hic hrc hbc hpi

theorem conflictSectionIds_erase (c : ConflictSummary) :
    conflictSectionIds (eraseSummary c) = conflictSectionIds c := by
  have hform : ∀ d : ConflictSummary, conflictSectionIds d
      = d.labBufferConflicts.foldl
          (fun acc item => insert item.secondSection.id (insert item.firstSection.id acc))
          (d.roomConflicts.foldl
            (fun acc item => insert item.sectionB.id (insert item.sectionA.id acc))
            (d.instructorConflicts.foldl
              (fun acc item => insert item.sectionB.id (insert item.sectionA.id acc))
              ∅)) := fun d => rfl
  rw [hform, hform]
  show (c.labBufferConflicts.map eraseBC).foldl _
      ((c.roomConflicts.map eraseRC).foldl _
        ((c.instructorConflicts.map eraseIC).foldl _ ∅)) = _
  rw [List.foldl_map, List.foldl_map, List.foldl_map]
  rfl

/-- C9: the kind field of a Section never affects conflict detection: two inputs
equal after kind erasure produce reports equal after kind erasure (same flagged
occurrence pairs, days, names, gaps and pathway messages) and the very same
conflictedSectionIds set. -/
theorem spec_c9 (s1 s2 : List Section) (instructors : List Instructor)
    (rooms : List Room) (pathways : List Pathway) (buf : Int)
    (h : s1.map eraseKind = s2.map eraseKind) :
    eraseSummary (computeConflicts s1 instructors rooms pathways buf)
      = eraseSummary (computeConflicts s2 instructors rooms pathways buf) ∧
    conflictSectionIds (computeConflicts s1 instructors rooms pathways buf)
      = conflictSectionIds (computeConflicts s2 instructors rooms pathways buf) := by
  have h1 : computeConflicts (s1.map eraseKind) instructors rooms pathways buf
      = computeConflicts (s2.map eraseKind) instructors rooms pathways buf := by
    rw [h]
  rw [computeConflicts_erase, computeConflicts_erase] at h1
  refine ⟨h1, ?_⟩
  rw [← conflictSectionIds_erase (computeConflicts s1 instructors rooms pathways buf),
      h1, conflictSectionIds_erase]

/-- C9 witness: the Dr. Chen input with kinds lecture/lecture versus lab/seminar, via
the main theorem at the concrete pair of inputs. -/
theorem spec_c9_witness :
    eraseSummary (computeConflicts [exChenX, exChenY] [⟨"chen", "Dr. Chen"⟩] [] [] 30)
      = eraseSummary (computeConflicts [exKindX, exKindY]
          [⟨"chen", "Dr. Chen"⟩] [] [] 30) ∧
    conflictSectionIds (computeConflicts [exChenX, exChenY]
        [⟨"chen", "Dr. Chen"⟩] [] [] 30)
      = conflictSectionIds (computeConflicts [exKindX, exKindY]
          [⟨"chen", "Dr. Chen"⟩] [] [] 30) :=
  spec_c9 [exChenX, exChenY] [exKindX, exKindY] [⟨"chen", "Dr. Chen"⟩] [] [] 30
    (by decide)

end Sched
